import Mathlib

/-!
Verification development for the ICMP health-probe / plot-graph monitor
(`healthprob2.py`).  The Python program is shallowly embedded: Python dicts
become association lists, `time.time()` becomes an explicit `Nat` clock
argument, and the external world (DNS, `ping`, SSH sessions) is passed in as
oracle functions.  All definitions are executable.
-/

namespace HealthProb

/-! ## Python dict model (association lists keyed by `String`) -/

/-- Lookup in a Python dict (`d.get(k)` / `d[k]`). -/
def dictGet {α : Type} (d : List (String × α)) (k : String) : Option α :=
  (d.find? (fun e => e.1 == k)).map (fun e => e.2)

/-- Lookup with default (`d.get(k, v)`). -/
def dictGetD {α : Type} (d : List (String × α)) (k : String) (v : α) : α :=
  (dictGet d k).getD v

/-- Assignment `d[k] = v`: replace the entry if the key is present, otherwise
append it. -/
def dictSet {α : Type} (d : List (String × α)) (k : String) (v : α) :
    List (String × α) :=
  if d.any (fun e => e.1 == k) then
    d.map (fun e => if e.1 == k then (k, v) else e)
  else d ++ [(k, v)]

theorem dictGet_nil {α : Type} (k : String) :
    dictGet ([] : List (String × α)) k = none := rfl

theorem dictGet_cons {α : Type} (e : String × α) (d : List (String × α)) (k : String) :
    dictGet (e :: d) k = if e.1 = k then some e.2 else dictGet d k := by
  by_cases h : e.1 = k
  · simp [dictGet, List.find?, h]
  · simp [dictGet, List.find?, beq_eq_false_iff_ne.2 h, h]

theorem dictGet_map_replace {α : Type} (d : List (String × α)) (k k' : String) (v : α) :
    dictGet (d.map (fun e => if e.1 == k then (k, v) else e)) k'
      = if k' = k then (if d.any (fun e => e.1 == k) then some v else none)
        else dictGet d k' := by
  induction d with
  | nil => by_cases h : k' = k <;> simp [dictGet_nil, h]
  | cons e d ih =>
    simp only [List.map_cons, List.any_cons]
    by_cases he : e.1 = k
    · simp only [he, beq_self_eq_true, if_true, Bool.true_or]
      by_cases hk : k' = k
      · simp [hk, dictGet_cons]
      · have hkk : ¬ (k = k') := fun h => hk h.symm
        have he' : ¬ (e.1 = k') := by rw [he]; exact hkk
        rw [dictGet_cons, if_neg hkk, ih, if_neg hk, if_neg hk, dictGet_cons, if_neg he']
    · have hbe : (e.1 == k) = false := beq_eq_false_iff_ne.2 he
      simp only [hbe, Bool.false_eq_true, if_false, Bool.false_or]
      by_cases hek' : e.1 = k'
      · have hk : ¬ (k' = k) := by
          intro h; exact he (h ▸ hek')
        rw [dictGet_cons, if_pos hek', if_neg hk, dictGet_cons, if_pos hek']
      · rw [dictGet_cons, if_neg hek', ih, dictGet_cons, if_neg hek']

theorem dictGet_append_single {α : Type} (d : List (String × α)) (k k' : String) (v : α)
    (h : d.any (fun e => e.1 == k) = false) :
    dictGet (d ++ [(k, v)]) k' = if k' = k then some v else dictGet d k' := by
  induction d with
  | nil =>
    by_cases hk : k' = k
    · simp [dictGet_cons, hk]
    · have : ¬ (k = k') := fun hh => hk hh.symm
      simp [dictGet_cons, hk, this, dictGet_nil]
  | cons e d ih =>
    simp only [List.any_cons, Bool.or_eq_false_iff] at h
    obtain ⟨h1, h2⟩ := h
    have he : ¬ (e.1 = k) := by
      intro hh; simp [hh] at h1
    simp only [List.cons_append, dictGet_cons, ih h2]
    by_cases hek' : e.1 = k'
    · have hk : ¬ (k' = k) := by intro hh; exact he (hh ▸ hek')
      simp [hek', hk]
    · simp [hek']

/-- Characterisation of Python dict assignment. -/
theorem dictGet_dictSet {α : Type} (d : List (String × α)) (k k' : String) (v : α) :
    dictGet (dictSet d k v) k' = if k' = k then some v else dictGet d k' := by
  unfold dictSet
  by_cases hmem : d.any (fun e => e.1 == k)
  · simp only [hmem, if_true, dictGet_map_replace, hmem]
  · have hf : d.any (fun e => e.1 == k) = false := Bool.eq_false_iff.mpr hmem
    simp only [hf, Bool.false_eq_true, if_false, dictGet_append_single d k k' v hf]

theorem dictGet_dictSet_self {α : Type} (d : List (String × α)) (k : String) (v : α) :
    dictGet (dictSet d k v) k = some v := by
  simp [dictGet_dictSet]

theorem dictGet_dictSet_ne {α : Type} (d : List (String × α)) (k k' : String) (v : α)
    (h : k' ≠ k) : dictGet (dictSet d k v) k' = dictGet d k' := by
  simp [dictGet_dictSet, h]

/-- Folding key-determined writes over a list of keys: the final value of `k`
is `f k` if `k` occurs in the list, and is untouched otherwise. -/
theorem dictGet_foldl_set {α : Type} (f : String → α) (l : List String)
    (d : List (String × α)) (k : String) :
    dictGet (l.foldl (fun acc x => dictSet acc x (f x)) d) k
      = if k ∈ l then some (f k) else dictGet d k := by
  induction l generalizing d with
  | nil => simp
  | cons x xs ih =>
    simp only [List.foldl_cons, ih, List.mem_cons]
    by_cases hx : k ∈ xs
    · simp [hx]
    · by_cases hk : k = x
      · simp [hk, hx, dictGet_dictSet_self]
      · simp [hk, hx, dictGet_dictSet_ne _ _ _ _ hk]

/-! ## String helpers (Python `str` operations on ASCII data) -/

/-- Python `\s` / `str.strip()` whitespace class (ASCII part: space, tab,
newline, carriage return, vertical tab, form feed). -/
def isPySpace (c : Char) : Bool :=
  c = ' ' || c = '\t' || c = '\n' || c = '\r' || c = Char.ofNat 11 || c = Char.ofNat 12

/-- Python `str.strip()` on a character list. -/
def pyStripL (l : List Char) : List Char :=
  ((l.dropWhile isPySpace).reverse.dropWhile isPySpace).reverse

/-- Python `str.strip()`. -/
def pyStrip (s : String) : String := ⟨pyStripL s.data⟩

/-- The character class `[A-Za-z0-9._\-]` used by every hostname/model regex
in the source. -/
def isTokenChar (c : Char) : Bool :=
  ('A' ≤ c && c ≤ 'Z') || ('a' ≤ c && c ≤ 'z') || ('0' ≤ c && c ≤ '9') ||
  c = '.' || c = '_' || c = '-'

/-- Python `str.splitlines()` restricted to the newline conventions that can
occur in the modelled command outputs (`\n`, `\r`, `\r\n`); no trailing empty
line is produced. -/
def splitLinesAux : List Char → List Char → List (List Char)
  | [], acc => if acc.isEmpty then [] else [acc.reverse]
  | '\r' :: '\n' :: rest, acc => acc.reverse :: splitLinesAux rest []
  | '\r' :: rest, acc => acc.reverse :: splitLinesAux rest []
  | '\n' :: rest, acc => acc.reverse :: splitLinesAux rest []
  | c :: rest, acc => splitLinesAux rest (c :: acc)

def splitLinesPy (l : List Char) : List (List Char) := splitLinesAux l []

/-! ## `clean_hostname` (source lines 73-82)

```python
SUFFIXES = (".elements.local", ".intel.com", ".corp.nandps.com")
def clean_hostname(hn):
    if not hn: return "unknown"
    h = hn.strip(); hl = h.lower()
    for sfx in SUFFIXES:
        if hl.endswith(sfx):
            h = h[:-(len(sfx))]; break
    return h if h else "unknown"
```
(`str.lower` is modelled by `Char.toLower`, adequate for the ASCII suffixes.) -/

def SUFFIXES : List String := [".elements.local", ".intel.com", ".corp.nandps.com"]

/-- The first configured suffix that the lower-cased (already stripped) name
ends with, if any. -/
def suffix_hit (h : List Char) : Option String :=
  SUFFIXES.find? (fun sfx => sfx.data.isSuffixOf (h.map Char.toLower))

def clean_hostname (hn : String) : String :=
  if hn = "" then "unknown"
  else
    let h := pyStripL hn.data
    let h2 := match suffix_hit h with
      | some sfx => h.take (h.length - sfx.length)
      | none => h
    if h2.isEmpty then "unknown" else ⟨h2⟩

theorem string_mk_data (s : String) : String.mk s.data = s := rfl

theorem data_eq_nil_iff (s : String) : s.data = [] ↔ s = "" := by
  constructor
  · intro h; exact String.ext (by simp [h])
  · intro h; rw [h]

theorem isEmpty_eq_false_of_ne_nil {α : Type} {l : List α} (h : l ≠ []) :
    l.isEmpty = false := by
  cases l with
  | nil => exact absurd rfl h
  | cons a l => rfl

/-- C10, counterexample to the claim as stated: the hostname `" A "` does not
end (case-insensitively) with any configured suffix and is neither empty nor
all-suffix, yet it is not displayed unchanged: `clean_hostname` first strips
surrounding whitespace, a step the claim omits. -/
theorem claim_C10_counterexample :
    SUFFIXES.all (fun sfx => !(sfx.data.isSuffixOf (" A ".data.map Char.toLower))) = true
    ∧ " A " ≠ "" ∧ clean_hostname " A " = "A" ∧ " A " ≠ "A" := by
  decide

/-- C10 (amended): every hostname shown in the snapshot is post-processed by
`clean_hostname`, which first strips surrounding whitespace (`pyStripL`); if
the stripped name ends (case-insensitively) with one of the configured
domain suffixes `".elements.local"`, `".intel.com"`, `".corp.nandps.com"`,
exactly one such suffix (the first matching one) is stripped from the
stripped name; an empty, whitespace-only or all-suffix name becomes
`"unknown"`; any other name is displayed in its stripped form.  All three
cases are stated for arbitrary (in particular whitespace-padded) input. -/
theorem claim_C10_hostname_cleanup :
    (∀ hn : String, hn ≠ "" → pyStripL hn.data ≠ [] →
      suffix_hit (pyStripL hn.data) = none →
      clean_hostname hn = ⟨pyStripL hn.data⟩)
    ∧ (∀ (hn : String) (sfx : String), hn ≠ "" →
        suffix_hit (pyStripL hn.data) = some sfx →
        (pyStripL hn.data).take ((pyStripL hn.data).length - sfx.length) ≠ [] →
        clean_hostname hn
          = ⟨(pyStripL hn.data).take ((pyStripL hn.data).length - sfx.length)⟩)
    ∧ (∀ hn : String,
        (hn = "" ∨ pyStripL hn.data = [] ∨
          ∃ sfx, suffix_hit (pyStripL hn.data) = some sfx ∧
            (pyStripL hn.data).take ((pyStripL hn.data).length - sfx.length) = []) →
        clean_hostname hn = "unknown") := by
  refine ⟨?_, ?_, ?_⟩
  · intro hn h0 hw hmiss
    simp only [clean_hostname, h0, if_false, hmiss,
      isEmpty_eq_false_of_ne_nil hw, Bool.false_eq_true, if_false]
  · intro hn sfx h0 hhit hne
    simp only [clean_hostname, h0, if_false, hhit,
      isEmpty_eq_false_of_ne_nil hne, Bool.false_eq_true, if_false]
  · intro hn hcase
    rcases hcase with h0 | hw | ⟨sfx, hhit, htake⟩
    · simp [clean_hostname, h0]
    · by_cases h0 : hn = ""
      · simp [clean_hostname, h0]
      · have hmiss0 : suffix_hit [] = none := by decide
        simp [clean_hostname, h0, hw, hmiss0]
    · by_cases h0 : hn = ""
      · simp [clean_hostname, h0]
      · simp [clean_hostname, h0, hhit, htake]

/-- Witness for `claim_C10_hostname_cleanup` at concrete inputs, including
whitespace-padded ones: a padded suffix-free name displays stripped, a
padded suffixed name displays stripped with the suffix removed. -/
theorem claim_C10_hostname_cleanup_witness :
    clean_hostname " CORE-SW-1 " = "CORE-SW-1"
    ∧ clean_hostname "  HOST.intel.com " = "HOST"
    ∧ clean_hostname "  " = "unknown" := by
  refine ⟨?_, ?_, ?_⟩
  · have h := claim_C10_hostname_cleanup.1 " CORE-SW-1 "
      (by decide) (by decide) (by decide)
    rw [h]; decide
  · have h := claim_C10_hostname_cleanup.2.1 "  HOST.intel.com " ".intel.com"
      (by decide) (by decide) (by decide)
    rw [h]; decide
  · exact claim_C10_hostname_cleanup.2.2 "  " (Or.inr (Or.inl (by decide)))

/-! ## Prober (source lines 180-191 and 302-312)

`ping_target` runs one `ping` with a 1s timeout via `run_silent` and returns
`returncode == 0`; any raised exception is caught and mapped to `False`.  The
environment is an oracle `String → Except Unit Bool`: `.ok b` is a completed
`ping` with exit status `b`, `.error ()` is a raised execution error.
`concurrent_ping` collects one result per submitted target into a dict
(completion order only affects dict insertion order, which is irrelevant to
keyed lookup; we fold in submission order). -/

abbrev ProbeEnv := String → Except Unit Bool

abbrev PingMap := List (String × Bool)

def ping_target (pe : ProbeEnv) (t : String) : Bool :=
  match pe t with
  | Except.ok b => b
  | Except.error _ => false

def concurrent_ping (pe : ProbeEnv) (targets : List String) : PingMap :=
  targets.foldl (fun acc t => dictSet acc t (ping_target pe t)) []

theorem concurrent_ping_lookup (pe : ProbeEnv) (targets : List String) (t : String) :
    dictGet (concurrent_ping pe targets) t
      = if t ∈ targets then some (ping_target pe t) else none := by
  simp [concurrent_ping, dictGet_foldl_set, dictGet_nil]

/-- C5: `concurrent_ping` assigns a boolean to every submitted target (no
partial result); an execution error while probing one target yields `false`
for that target; and a change of probe behaviour at one target never changes
any other target's result (fault isolation). -/
theorem claim_C5_probe_totality_and_isolation :
    (∀ (pe : ProbeEnv) (targets : List String), ∀ t ∈ targets,
      dictGet (concurrent_ping pe targets) t = some (ping_target pe t))
    ∧ (∀ (pe : ProbeEnv) (targets : List String), ∀ t ∈ targets,
        pe t = Except.error () →
        dictGet (concurrent_ping pe targets) t = some false)
    ∧ (∀ (pe pe' : ProbeEnv) (targets : List String) (x : String),
        (∀ t, t ≠ x → pe t = pe' t) → ∀ t ∈ targets, t ≠ x →
        dictGet (concurrent_ping pe targets) t
          = dictGet (concurrent_ping pe' targets) t) := by
  refine ⟨?_, ?_, ?_⟩
  · intro pe targets t ht
    simp [concurrent_ping_lookup, ht]
  · intro pe targets t ht herr
    simp [concurrent_ping_lookup, ht, ping_target, herr]
  · intro pe pe' targets x hagree t ht hne
    simp [concurrent_ping_lookup, ht, ping_target, hagree t hne]

/-- Witness for `claim_C5_probe_totality_and_isolation` at concrete inputs. -/
theorem claim_C5_probe_totality_and_isolation_witness :
    dictGet (concurrent_ping
        (fun t => if t = "10.0.0.1" then Except.ok true else Except.error ())
        ["10.0.0.1", "10.0.0.2"]) "10.0.0.2" = some false
    ∧ dictGet (concurrent_ping
        (fun t => if t = "10.0.0.1" then Except.ok true else Except.error ())
        ["10.0.0.1", "10.0.0.2"]) "10.0.0.1"
      = dictGet (concurrent_ping
        (fun t => if t = "10.0.0.1" then Except.ok true
                  else if t = "10.0.0.2" then Except.ok false else Except.error ())
        ["10.0.0.1", "10.0.0.2"]) "10.0.0.1" := by
  constructor
  · exact claim_C5_probe_totality_and_isolation.2.1
      (fun t => if t = "10.0.0.1" then Except.ok true else Except.error ())
      ["10.0.0.1", "10.0.0.2"] "10.0.0.2" (by decide) rfl
  · exact claim_C5_probe_totality_and_isolation.2.2
      (fun t => if t = "10.0.0.1" then Except.ok true else Except.error ())
      (fun t => if t = "10.0.0.1" then Except.ok true
                else if t = "10.0.0.2" then Except.ok false else Except.error ())
      ["10.0.0.1", "10.0.0.2"] "10.0.0.2"
      (fun t hne => by by_cases h : t = "10.0.0.1" <;> simp [h, hne])
      "10.0.0.1" (by decide) (by decide)

/-! ## MetadataFetcher: SSH hostname retrieval (source lines 196-254)

`ssh_exec_once(ip, command)` is modelled by an oracle
`SshEnv : String → String → Bool × String` giving, per target and command,
the pair `(ok, stripped output)`; `(False, "")` is the all-credentials-failed
outcome.  The two regexes of the source are implemented character by
character:

* dialect A (NX-OS `show hostname`): per stripped non-empty line, search
  `Hostname\s*:\s*([A-Za-z0-9._\-]+)` case-insensitively; else accept a
  single unlabelled `^[A-Za-z0-9._\-]+$` line;
* dialect B (IOS-XE `show running-config | include ^hostname`): per line,
  `^\s*hostname\s+([A-Za-z0-9._\-]+)\s*$`. -/

abbrev SshEnv := String → String → Bool × String

/-- Match a literal, case-sensitively, at the head of the input. -/
def stripLit : List Char → List Char → Option (List Char)
  | [], cs => some cs
  | _ :: _, [] => none
  | l :: ls, c :: cs => if c = l then stripLit ls cs else none

/-- Match a literal (given lower-case), case-insensitively, at the head. -/
def stripCI : List Char → List Char → Option (List Char)
  | [], cs => some cs
  | _ :: _, [] => none
  | l :: ls, c :: cs => if c.toLower = l then stripCI ls cs else none

/-- Attempt `label\s*:\s*([A-Za-z0-9._\-]+)` (case-insensitive) at this
position. -/
def matchLabelColonAt (label : List Char) (cs : List Char) : Option (List Char) :=
  match stripCI label cs with
  | none => none
  | some cs1 =>
    match cs1.dropWhile isPySpace with
    | ':' :: cs3 =>
      let tok := (cs3.dropWhile isPySpace).takeWhile isTokenChar
      if tok.isEmpty then none else some tok
    | _ => none

/-- `re.search`: try the pattern at each start position, leftmost match
wins. -/
def searchFirst (f : List Char → Option (List Char)) : List Char → Option (List Char)
  | [] => f []
  | c :: cs =>
    match f (c :: cs) with
    | some r => some r
    | none => searchFirst f cs

/-- One line against `^\s*hostname\s+([A-Za-z0-9._\-]+)\s*$`
(case-sensitive). -/
def matchIosxeLine (cs : List Char) : Option (List Char) :=
  match stripLit "hostname".data (cs.dropWhile isPySpace) with
  | none => none
  | some cs2 =>
    match cs2 with
    | c :: _ =>
      if isPySpace c then
        let cs3 := cs2.dropWhile isPySpace
        let tok := cs3.takeWhile isTokenChar
        if tok.isEmpty then none
        else if (cs3.dropWhile isTokenChar).all isPySpace then some tok else none
      else none
    | [] => none

/-- `parse_iosxe_hostname` (source lines 228-233): first matching line wins. -/
def parse_iosxe_hostname (output : String) : String :=
  match (splitLinesPy output.data).findSome? matchIosxeLine with
  | some tok => ⟨tok⟩
  | none => ""

/-- The dialect-A (NX-OS) parse of `show hostname` output (source lines
238-245): a labelled `Hostname: <tok>` line anywhere, else a single
unlabelled token line. -/
def dialectA_parse (out : String) : String :=
  let lines := ((splitLinesPy out.data).map pyStripL).filter (fun l => !l.isEmpty)
  match lines.findSome? (fun l => searchFirst (matchLabelColonAt "hostname".data) l) with
  | some tok => ⟨tok⟩
  | none =>
    match lines with
    | [l] => if !l.isEmpty && l.all isTokenChar then ⟨l⟩ else ""
    | _ => ""

/-- Outcome of the dialect-A attempt: `""` when the command failed, returned
empty output, or nothing parsed (`if ok and out:` guard plus parse). -/
def dialectA_result (r : Bool × String) : String :=
  if r.1 && r.2 != "" then dialectA_parse r.2 else ""

/-- Outcome of the dialect-B attempt. -/
def dialectB_result (r : Bool × String) : String :=
  if r.1 && r.2 != "" then parse_iosxe_hostname r.2 else ""

def CMD_NXOS_HOSTNAME : String := "show hostname"

def CMD_IOSXE_HOSTNAME : String := "show running-config | include ^hostname"

/-- `get_hostname_via_ssh` (source lines 235-254). -/
def get_hostname_via_ssh (sshE : SshEnv) (ip : String) : String :=
  let a := dialectA_result (sshE ip CMD_NXOS_HOSTNAME)
  if a ≠ "" then a
  else
    let b := dialectB_result (sshE ip CMD_IOSXE_HOSTNAME)
    if b ≠ "" then b else "unknown"

theorem parse_iosxe_hostname_empty : parse_iosxe_hostname "" = "" := rfl

/-- C4: the hostname fetch tries the dialect-A command first and returns its
parse when it yields anything (labelled `Hostname: <value>` line or single
unlabelled token); when dialect A yields nothing it returns the non-empty
`hostname <token>` parse of the dialect-B filtered running-config command;
when both yield nothing it returns `"unknown"`.  In particular, when dialect
A returns empty output and dialect B returns `"hostname CORE-SW-1"`, the
result is `"CORE-SW-1"`. -/
theorem claim_C4_hostname_command_chain :
    (∀ (sshE : SshEnv) (ip : String),
      dialectA_result (sshE ip CMD_NXOS_HOSTNAME) ≠ "" →
      get_hostname_via_ssh sshE ip = dialectA_result (sshE ip CMD_NXOS_HOSTNAME))
    ∧ (∀ (sshE : SshEnv) (ip : String),
        dialectA_result (sshE ip CMD_NXOS_HOSTNAME) = "" →
        (sshE ip CMD_IOSXE_HOSTNAME).1 = true →
        parse_iosxe_hostname (sshE ip CMD_IOSXE_HOSTNAME).2 ≠ "" →
        get_hostname_via_ssh sshE ip
          = parse_iosxe_hostname (sshE ip CMD_IOSXE_HOSTNAME).2)
    ∧ (∀ (sshE : SshEnv) (ip : String),
        dialectA_result (sshE ip CMD_NXOS_HOSTNAME) = "" →
        dialectB_result (sshE ip CMD_IOSXE_HOSTNAME) = "" →
        get_hostname_via_ssh sshE ip = "unknown")
    ∧ get_hostname_via_ssh
        (fun _ cmd => if cmd = CMD_NXOS_HOSTNAME then (true, "")
          else if cmd = CMD_IOSXE_HOSTNAME then (true, "hostname CORE-SW-1")
          else (false, "")) "10.0.0.9" = "CORE-SW-1" := by
  refine ⟨?_, ?_, ?_, ?_⟩
  · intro sshE ip h
    simp only [get_hostname_via_ssh]
    rw [if_pos h]
  · intro sshE ip hA hok hparse
    have hout : (sshE ip CMD_IOSXE_HOSTNAME).2 ≠ "" := by
      intro h
      rw [h, parse_iosxe_hostname_empty] at hparse
      exact hparse rfl
    have hB : dialectB_result (sshE ip CMD_IOSXE_HOSTNAME)
        = parse_iosxe_hostname (sshE ip CMD_IOSXE_HOSTNAME).2 := by
      simp [dialectB_result, hok, hout]
    simp only [get_hostname_via_ssh, hA]
    rw [if_neg (by simp), hB, if_pos hparse]
  · intro sshE ip hA hB
    simp only [get_hostname_via_ssh, hA, hB]
    rw [if_neg (by simp), if_neg (by simp)]
  · decide

/-- Witness for `claim_C4_hostname_command_chain` at concrete oracles. -/
theorem claim_C4_hostname_command_chain_witness :
    get_hostname_via_ssh (fun _ _ => (true, "Hostname: SW7")) "10.0.0.9" = "SW7"
    ∧ get_hostname_via_ssh (fun _ _ => (false, "")) "10.0.0.9" = "unknown" := by
  constructor
  · have h := claim_C4_hostname_command_chain.1
      (fun _ _ => (true, "Hostname: SW7")) "10.0.0.9" (by decide)
    rw [h]; decide
  · exact claim_C4_hostname_command_chain.2.2.1
      (fun _ _ => (false, "")) "10.0.0.9" (by decide) (by decide)

/-! ## Resolver: DNS caches (source lines 137-175, 288-297)

The OS resolver is an oracle.  `inet_aton_ok` models whether
`socket.inet_aton` accepts the string (`is_ip`, source lines 102-107);
`gethostbyaddr` / `gethostbyname` / `getfqdn` return `none` where the Python
call raises.  `lookups` counts resolver-library calls performed. -/

structure DnsEnv where
  inet_aton_ok : String → Bool
  gethostbyaddr : String → Option String
  gethostbyname : String → Option String
  getfqdn : String → Option String

def DNS_REFRESH_SEC : Nat := 300

abbrev RevCache := List (String × String × Nat)

abbrev FwdCache := List (String × String × String × Nat)

/-- Cache-miss path of `dns_reverse` (source lines 141-148). -/
def dns_reverse_miss (env : DnsEnv) (rc : RevCache) (now : Nat) (ip : String) :
    String × RevCache × Nat :=
  let name := (env.gethostbyaddr ip).getD ""
  (name, dictSet rc ip (name, now), 1)

/-- `dns_reverse` (source lines 137-148): returns the reverse name, the new
reverse cache, and the number of lookups performed. -/
def dns_reverse (env : DnsEnv) (rc : RevCache) (now : Nat) (ip : String) :
    String × RevCache × Nat :=
  match dictGet rc ip with
  | some r =>
    if now - r.2 < DNS_REFRESH_SEC then (r.1, rc, 0)
    else dns_reverse_miss env rc now ip
  | none => dns_reverse_miss env rc now ip

structure FwdOut where
  ip : String
  cname : String
  fwd : FwdCache
  rev : RevCache
  lookups : Nat

/-- Cache-miss path of `dns_forward` (source lines 160-175): literal-address
branch, forward-lookup branch, and the catch-all `("", "")` failure; every
result is written back to the forward cache. -/
def dns_forward_miss (env : DnsEnv) (fc : FwdCache) (rc : RevCache) (now : Nat)
    (entry : String) : FwdOut :=
  if env.inet_aton_ok entry then
    let rr := dns_reverse env rc now entry
    ⟨entry, rr.1, dictSet fc entry (entry, rr.1, now), rr.2.1, rr.2.2⟩
  else
    match env.gethostbyname entry with
    | some ipr =>
      let cn := match env.getfqdn entry with
        | some n => n
        | none => entry
      ⟨ipr, cn, dictSet fc entry (ipr, cn, now), rc, 2⟩
    | none => ⟨"", "", dictSet fc entry ("", "", now), rc, 1⟩

/-- `dns_forward` (source lines 150-175). -/
def dns_forward (env : DnsEnv) (fc : FwdCache) (rc : RevCache) (now : Nat)
    (entry : String) : FwdOut :=
  match dictGet fc entry with
  | some r =>
    if now - r.2.2 < DNS_REFRESH_SEC then ⟨r.1, r.2.1, fc, rc, 0⟩
    else dns_forward_miss env fc rc now entry
  | none => dns_forward_miss env fc rc now entry

theorem dns_forward_miss_cached (env : DnsEnv) (fc : FwdCache) (rc : RevCache)
    (now : Nat) (entry : String) :
    dictGet (dns_forward_miss env fc rc now entry).fwd entry
      = some ((dns_forward_miss env fc rc now entry).ip,
              (dns_forward_miss env fc rc now entry).cname, now) := by
  unfold dns_forward_miss
  by_cases ha : env.inet_aton_ok entry
  · simp [ha, dictGet_dictSet_self]
  · simp only [ha, Bool.false_eq_true, if_false]
    cases hgh : env.gethostbyname entry with
    | some ipr => simp [dictGet_dictSet_self]
    | none => simp [dictGet_dictSet_self]

theorem dns_forward_of_miss (env : DnsEnv) (fc : FwdCache) (rc : RevCache)
    (now : Nat) (entry : String) (h : dictGet fc entry = none) :
    dns_forward env fc rc now entry = dns_forward_miss env fc rc now entry := by
  simp [dns_forward, h]

/-! ### Devices model (source lines 275-297) -/

structure DeviceEntry where
  original : String
  ip : String
  dns_name : String
deriving DecidableEq

/-- `resolve_devices` (source lines 288-297), threading the two DNS caches:
```python
for e in entries:
    ip, cname = dns_forward(e)
    if not ip:
        ip = e if is_ip(e) else ""
    if is_ip(e) and not cname and ip:
        cname = dns_reverse(ip)
    resolved.append(DeviceEntry(e, ip, cname))
``` -/
def resolve_devices (env : DnsEnv) (now : Nat) :
    FwdCache → RevCache → List String → List DeviceEntry × FwdCache × RevCache
  | fc, rc, [] => ([], fc, rc)
  | fc, rc, e :: rest =>
    let o := dns_forward env fc rc now e
    let ip1 := if o.ip = "" then (if env.inet_aton_ok e then e else "") else o.ip
    let pr : String × RevCache :=
      if env.inet_aton_ok e && o.cname == "" && ip1 != "" then
        let rr := dns_reverse env o.rev now ip1
        (rr.1, rr.2.1)
      else (o.cname, o.rev)
    let res := resolve_devices env now o.fwd pr.2 rest
    (⟨e, ip1, pr.1⟩ :: res.1, res.2.1, res.2.2)

/-- C7: for a literal network address the resolver returns the address itself
with the reverse-lookup name (empty on failure); every result, including the
`("", "")` of a failed resolution, is cached keyed by the entry; and a second
call within `DNS_REFRESH_SEC` returns the cached pair performing no lookup
and leaving both caches unchanged. -/
theorem claim_C7_resolver_literal_and_cache :
    (∀ (env : DnsEnv) (fc : FwdCache) (rc : RevCache) (now : Nat) (entry : String),
      env.inet_aton_ok entry = true → dictGet fc entry = none →
      dictGet rc entry = none →
      (dns_forward env fc rc now entry).ip = entry
      ∧ (dns_forward env fc rc now entry).cname = (env.gethostbyaddr entry).getD "")
    ∧ (∀ (env : DnsEnv) (fc : FwdCache) (rc : RevCache) (now : Nat) (entry : String),
        ∃ ts, dictGet (dns_forward env fc rc now entry).fwd entry
          = some ((dns_forward env fc rc now entry).ip,
                  (dns_forward env fc rc now entry).cname, ts))
    ∧ (∀ (env : DnsEnv) (fc : FwdCache) (rc : RevCache) (now1 now2 : Nat)
        (entry : String),
        dictGet fc entry = none → now2 - now1 < DNS_REFRESH_SEC →
        dns_forward env (dns_forward env fc rc now1 entry).fwd
            (dns_forward env fc rc now1 entry).rev now2 entry
          = ⟨(dns_forward env fc rc now1 entry).ip,
             (dns_forward env fc rc now1 entry).cname,
             (dns_forward env fc rc now1 entry).fwd,
             (dns_forward env fc rc now1 entry).rev, 0⟩) := by
  refine ⟨?_, ?_, ?_⟩
  · intro env fc rc now entry ha hfc hrc
    rw [dns_forward_of_miss env fc rc now entry hfc]
    unfold dns_forward_miss
    simp [ha, dns_reverse, hrc, dns_reverse_miss]
  · intro env fc rc now entry
    unfold dns_forward
    cases hfc : dictGet fc entry with
    | some r =>
      by_cases hfresh : now - r.2.2 < DNS_REFRESH_SEC
      · exact ⟨r.2.2, by simp [hfresh, hfc]⟩
      · exact ⟨now, by simp [hfresh, dns_forward_miss_cached]⟩
    | none => exact ⟨now, by simp [dns_forward_miss_cached]⟩
  · intro env fc rc now1 now2 entry hfc hfresh
    rw [dns_forward_of_miss env fc rc now1 entry hfc]
    have hc := dns_forward_miss_cached env fc rc now1 entry
    unfold dns_forward
    rw [hc]
    simp [hfresh]

/-- Witness for `claim_C7_resolver_literal_and_cache` at a concrete
environment. -/
theorem claim_C7_resolver_literal_and_cache_witness :
    (dns_forward
      ⟨fun s => s = "10.0.0.1", fun _ => some "sw1.intel.com",
       fun _ => none, fun _ => none⟩ [] [] 5 "10.0.0.1").ip = "10.0.0.1"
    ∧ (dns_forward
      ⟨fun s => s = "10.0.0.1", fun _ => some "sw1.intel.com",
       fun _ => none, fun _ => none⟩ [] [] 5 "10.0.0.1").cname = "sw1.intel.com"
    ∧ (∃ ts, dictGet (dns_forward
        ⟨fun s => s = "10.0.0.1", fun _ => none, fun _ => none, fun _ => none⟩
        [] [] 5 "bogus.invalid").fwd "bogus.invalid"
        = some ((dns_forward
            ⟨fun s => s = "10.0.0.1", fun _ => none, fun _ => none, fun _ => none⟩
            [] [] 5 "bogus.invalid").ip,
          (dns_forward
            ⟨fun s => s = "10.0.0.1", fun _ => none, fun _ => none, fun _ => none⟩
            [] [] 5 "bogus.invalid").cname, ts)) := by
  refine ⟨?_, ?_, ?_⟩
  · have h := (claim_C7_resolver_literal_and_cache.1
      ⟨fun s => s = "10.0.0.1", fun _ => some "sw1.intel.com",
       fun _ => none, fun _ => none⟩ [] [] 5 "10.0.0.1"
      (by decide) rfl rfl).1
    exact h
  · have h := (claim_C7_resolver_literal_and_cache.1
      ⟨fun s => s = "10.0.0.1", fun _ => some "sw1.intel.com",
       fun _ => none, fun _ => none⟩ [] [] 5 "10.0.0.1"
      (by decide) rfl rfl).2
    rw [h]; rfl
  · exact claim_C7_resolver_literal_and_cache.2.1
      ⟨fun s => s = "10.0.0.1", fun _ => none, fun _ => none, fun _ => none⟩
      [] [] 5 "bogus.invalid"

/-! ## Hostname cache and per-cycle orchestration (source lines 256-270,
302-327, 437-493)

`time.time()` is a single `Nat` clock value per cycle.  The fetches that the
code performs (the worker-pool `fetch` closures of
`concurrent_hostname_refresh` and the `should_try_ssh` branch of
`get_hostname_cached`) are recorded in an explicit list of fetched
addresses. -/

def HOSTNAME_REFRESH_SEC : Nat := 120

abbrev Cache := List (String × String × Nat)

abbrev HostMap := List (String × String)

/-- `ip not in _hostname_cache or now - _hostname_cache[ip][1] >=
HOSTNAME_REFRESH_SEC` (the staleness test of source lines 262 and 318). -/
def cache_stale (c : Cache) (now : Nat) (k : String) : Bool :=
  match dictGet c k with
  | none => true
  | some r => decide (HOSTNAME_REFRESH_SEC ≤ now - r.2)

/-- The cached hostname, or `"unknown"` when no entry was ever created. -/
def valueOf (c : Cache) (k : String) : String :=
  match dictGet c k with
  | some r => r.1
  | none => "unknown"

/-- `get_hostname_cached` (source lines 256-270), instrumented with a Boolean
recording whether an SSH fetch was performed. -/
def get_hostname_cached (sshE : SshEnv) (c : Cache) (now : Nat) (ip : String)
    (should_try_ssh : Bool) : String × Cache × Bool :=
  match dictGet c ip with
  | some r =>
    if now - r.2 < HOSTNAME_REFRESH_SEC then (r.1, c, false)
    else if should_try_ssh then
      (get_hostname_via_ssh sshE ip,
       dictSet c ip (get_hostname_via_ssh sshE ip, now), true)
    else (r.1, c, false)
  | none =>
    if should_try_ssh then
      (get_hostname_via_ssh sshE ip,
       dictSet c ip (get_hostname_via_ssh sshE ip, now), true)
    else ("unknown", c, false)

theorem ghc_not_stale (sshE : SshEnv) (c : Cache) (now : Nat) (ip : String)
    (b : Bool) (h : cache_stale c now ip = false) :
    get_hostname_cached sshE c now ip b = (valueOf c ip, c, false) := by
  unfold cache_stale at h
  unfold get_hostname_cached valueOf
  cases hc : dictGet c ip with
  | none => rw [hc] at h; exact absurd h (by simp)
  | some r =>
    rw [hc] at h
    have hlt : now - r.2 < HOSTNAME_REFRESH_SEC := by
      have := of_decide_eq_false h
      omega
    simp [hlt]

theorem ghc_no_ssh (sshE : SshEnv) (c : Cache) (now : Nat) (ip : String) :
    get_hostname_cached sshE c now ip false = (valueOf c ip, c, false) := by
  unfold get_hostname_cached valueOf
  cases hc : dictGet c ip with
  | none => simp
  | some r => by_cases hlt : now - r.2 < HOSTNAME_REFRESH_SEC <;> simp [hlt]

theorem ghc_fetch (sshE : SshEnv) (c : Cache) (now : Nat) (ip : String)
    (h : cache_stale c now ip = true) :
    get_hostname_cached sshE c now ip true
      = (get_hostname_via_ssh sshE ip,
         dictSet c ip (get_hostname_via_ssh sshE ip, now), true) := by
  unfold cache_stale at h
  unfold get_hostname_cached
  cases hc : dictGet c ip with
  | none => simp
  | some r =>
    rw [hc] at h
    have hge : HOSTNAME_REFRESH_SEC ≤ now - r.2 := of_decide_eq_true h
    have : ¬ (now - r.2 < HOSTNAME_REFRESH_SEC) := by omega
    simp [this]

/-- Exhaustive case characterisation of `get_hostname_cached`. -/
theorem ghc_cases (sshE : SshEnv) (c : Cache) (now : Nat) (ip : String) (b : Bool) :
    (get_hostname_cached sshE c now ip b = (valueOf c ip, c, false)
      ∧ (b = false ∨ cache_stale c now ip = false))
    ∨ (get_hostname_cached sshE c now ip b
        = (get_hostname_via_ssh sshE ip,
           dictSet c ip (get_hostname_via_ssh sshE ip, now), true)
        ∧ b = true ∧ cache_stale c now ip = true) := by
  cases b with
  | false => exact Or.inl ⟨ghc_no_ssh sshE c now ip, Or.inl rfl⟩
  | true =>
    by_cases hst : cache_stale c now ip = true
    · exact Or.inr ⟨ghc_fetch sshE c now ip hst, rfl, hst⟩
    · have hst' : cache_stale c now ip = false := Bool.eq_false_iff.mpr hst
      exact Or.inl ⟨ghc_not_stale sshE c now ip true hst', Or.inr hst'⟩

/-- Staleness and cached value only depend on the key's entry. -/
theorem cache_stale_congr (c c' : Cache) (now : Nat) (k : String)
    (h : dictGet c k = dictGet c' k) :
    cache_stale c now k = cache_stale c' now k := by
  unfold cache_stale; rw [h]

theorem valueOf_congr (c c' : Cache) (k : String) (h : dictGet c k = dictGet c' k) :
    valueOf c k = valueOf c' k := by
  unfold valueOf; rw [h]

theorem cache_stale_now (c : Cache) (now : Nat) (k : String) (hn : String)
    (h : dictGet c k = some (hn, now)) : cache_stale c now k = false := by
  unfold cache_stale
  rw [h]
  simp [HOSTNAME_REFRESH_SEC]

/-- The `to_refresh` list of `concurrent_hostname_refresh` (source lines
316-319). -/
def refresh_list (c : Cache) (now : Nat) (ips_up : List String) : List String :=
  ips_up.filter (cache_stale c now)

/-- `concurrent_hostname_refresh` (source lines 314-327): fetch every stale
reachable address and write `(hostname, now)` back into the cache. -/
def concurrent_hostname_refresh (sshE : SshEnv) (c : Cache) (now : Nat)
    (ips_up : List String) : Cache :=
  (refresh_list c now ips_up).foldl
    (fun acc ip => dictSet acc ip (get_hostname_via_ssh sshE ip, now)) c

theorem refresh_lookup (sshE : SshEnv) (c : Cache) (now : Nat)
    (ips_up : List String) (k : String) :
    dictGet (concurrent_hostname_refresh sshE c now ips_up) k
      = if k ∈ refresh_list c now ips_up
        then some (get_hostname_via_ssh sshE k, now) else dictGet c k := by
  exact dictGet_foldl_set (fun ip => (get_hostname_via_ssh sshE ip, now)) _ c k

theorem mem_refresh_list (c : Cache) (now : Nat) (ips_up : List String) (k : String) :
    k ∈ refresh_list c now ips_up ↔ k ∈ ips_up ∧ cache_stale c now k = true := by
  simp [refresh_list, List.mem_filter]

/-- `dev.ip if dev.ip else dev.original` (the probe-target expression used
throughout `main`). -/
def target_of (dev : DeviceEntry) : String :=
  if dev.ip = "" then dev.original else dev.ip

/-- `ips_up` of `main` (source line 461):
`[dev.ip for dev in device_list if dev.ip and ping_map.get((dev.ip or dev.original), False)]`. -/
def ips_up_of (dl : List DeviceEntry) (pm : PingMap) : List String :=
  (dl.filter (fun dev => dev.ip != "" && dictGetD pm (target_of dev) false)).map
    DeviceEntry.ip

theorem mem_ips_up (dl : List DeviceEntry) (pm : PingMap) (k : String)
    (h : k ∈ ips_up_of dl pm) :
    ∃ dev ∈ dl, dev.ip = k ∧ k ≠ "" ∧ dictGetD pm k false = true := by
  obtain ⟨dev, hdev, hip⟩ := List.mem_map.mp h
  obtain ⟨hmem, hq⟩ := List.mem_filter.mp hdev
  have hq' := hq
  simp only [Bool.and_eq_true, bne_iff_ne] at hq'
  obtain ⟨hne, hup⟩ := hq'
  refine ⟨dev, hmem, hip, hip ▸ hne, ?_⟩
  have ht : target_of dev = dev.ip := by simp [target_of, hne]
  rw [ht] at hup
  rw [hip] at hup
  exact hup

theorem not_mem_ips_up_of_down (dl : List DeviceEntry) (pm : PingMap) (k : String)
    (h : dictGetD pm k false = false) : k ∉ ips_up_of dl pm := by
  intro hmem
  obtain ⟨dev, _, _, _, hup⟩ := mem_ips_up dl pm k hmem
  rw [h] at hup
  exact Bool.false_ne_true hup

/-- The host-map construction loop of `main` (source lines 466-473),
instrumented with the list of addresses fetched via `get_hostname_cached`. -/
def build_host_map (sshE : SshEnv) (now : Nat) (pm : PingMap) :
    Cache → HostMap → List DeviceEntry → HostMap × Cache × List String
  | c, hm, [] => (hm, c, [])
  | c, hm, dev :: rest =>
    if dev.ip = "" then
      build_host_map sshE now pm c (dictSet hm dev.original "unknown") rest
    else
      let r := get_hostname_cached sshE c now dev.ip (dictGetD pm dev.ip false)
      let res := build_host_map sshE now pm r.2.1 (dictSet hm dev.ip r.1) rest
      (res.1, res.2.1, (if r.2.2 then [dev.ip] else []) ++ res.2.2)

/-- One polling cycle's hostname handling (source lines 460-473): refresh the
cache for reachable addresses, then build the host map handed to the
snapshot.  Returns `(host map, cache, fetched addresses)`. -/
def cycle_hostnames (sshE : SshEnv) (now : Nat) (dl : List DeviceEntry)
    (pm : PingMap) (c : Cache) : HostMap × Cache × List String :=
  let c1 := concurrent_hostname_refresh sshE c now (ips_up_of dl pm)
  let res := build_host_map sshE now pm c1 [] dl
  (res.1, res.2.1, refresh_list c now (ips_up_of dl pm) ++ res.2.2)

structure CycleIn where
  now : Nat
  dl : List DeviceEntry
  pm : PingMap

/-- A sequence of polling cycles threading the hostname cache. -/
def run_cycles (sshE : SshEnv) : Cache → List CycleIn → Cache × List String
  | c, [] => (c, [])
  | c, cyc :: rest =>
    let r := cycle_hostnames sshE cyc.now cyc.dl cyc.pm c
    let r2 := run_cycles sshE r.2.1 rest
    (r2.1, r.2.2 ++ r2.2)

/-- A key whose cache entry is fresh is neither fetched nor overwritten by
the host-map loop. -/
theorem build_fresh (sshE : SshEnv) (now : Nat) (pm : PingMap)
    (dl : List DeviceEntry) :
    ∀ (c : Cache) (hm : HostMap) (k : String),
      cache_stale c now k = false →
      dictGet (build_host_map sshE now pm c hm dl).2.1 k = dictGet c k
      ∧ k ∉ (build_host_map sshE now pm c hm dl).2.2 := by
  induction dl with
  | nil => intro c hm k h; simp [build_host_map]
  | cons dev rest ih =>
    intro c hm k h
    by_cases hip : dev.ip = ""
    · simp only [build_host_map, if_pos hip]
      exact ih c _ k h
    · simp only [build_host_map, if_neg hip]
      rcases ghc_cases sshE c now dev.ip (dictGetD pm dev.ip false) with
        ⟨hr, _⟩ | ⟨hr, hb, hst⟩
      · rw [hr]
        simpa using ih c _ k h
      · rw [hr]
        have hkip : k ≠ dev.ip := by
          intro hkk
          rw [hkk] at h
          rw [h] at hst
          exact Bool.false_ne_true hst
        have hpres : dictGet (dictSet c dev.ip (get_hostname_via_ssh sshE dev.ip, now)) k
            = dictGet c k := dictGet_dictSet_ne c dev.ip k _ hkip
        have h2 : cache_stale (dictSet c dev.ip (get_hostname_via_ssh sshE dev.ip, now)) now k
            = false := by
          rw [cache_stale_congr _ c now k hpres]; exact h
        have := ih (dictSet c dev.ip (get_hostname_via_ssh sshE dev.ip, now))
          (dictSet hm dev.ip (get_hostname_via_ssh sshE dev.ip)) k h2
        dsimp only
        refine ⟨by rw [this.1, hpres], ?_⟩
        simp [hkip, this.2]

/-- A key that is never fetched keeps its cache entry through the host-map
loop. -/
theorem build_not_fetched (sshE : SshEnv) (now : Nat) (pm : PingMap)
    (dl : List DeviceEntry) :
    ∀ (c : Cache) (hm : HostMap) (k : String),
      k ∉ (build_host_map sshE now pm c hm dl).2.2 →
      dictGet (build_host_map sshE now pm c hm dl).2.1 k = dictGet c k := by
  induction dl with
  | nil => intro c hm k _; simp [build_host_map]
  | cons dev rest ih =>
    intro c hm k hk
    by_cases hip : dev.ip = ""
    · simp only [build_host_map, if_pos hip] at hk ⊢
      exact ih c _ k hk
    · simp only [build_host_map, if_neg hip] at hk ⊢
      rcases ghc_cases sshE c now dev.ip (dictGetD pm dev.ip false) with
        ⟨hr, _⟩ | ⟨hr, hb, hst⟩
      · rw [hr] at hk ⊢
        simp only [List.nil_append] at hk ⊢
        simp at hk ⊢
        exact ih c _ k hk
      · rw [hr] at hk ⊢
        simp at hk ⊢
        obtain ⟨hk1, hk2⟩ := hk
        rw [ih _ _ k hk2, dictGet_dictSet_ne c dev.ip k _ hk1]

/-- The host-map loop fetches any given key at most once. -/
theorem build_fetch_count (sshE : SshEnv) (now : Nat) (pm : PingMap)
    (dl : List DeviceEntry) :
    ∀ (c : Cache) (hm : HostMap) (k : String),
      ((build_host_map sshE now pm c hm dl).2.2).count k ≤ 1 := by
  induction dl with
  | nil => intro c hm k; simp [build_host_map]
  | cons dev rest ih =>
    intro c hm k
    by_cases hip : dev.ip = ""
    · simp only [build_host_map, if_pos hip]
      exact ih c _ k
    · simp only [build_host_map, if_neg hip]
      rcases ghc_cases sshE c now dev.ip (dictGetD pm dev.ip false) with
        ⟨hr, _⟩ | ⟨hr, hb, hst⟩
      · rw [hr]
        simpa using ih c _ k
      · rw [hr]
        dsimp only
        by_cases hk : k = dev.ip
        · subst hk
          have hfresh : cache_stale
              (dictSet c dev.ip (get_hostname_via_ssh sshE dev.ip, now)) now dev.ip = false :=
            cache_stale_now _ now dev.ip _ (dictGet_dictSet_self c dev.ip _)
          have hnot := (build_fresh sshE now pm rest
            (dictSet c dev.ip (get_hostname_via_ssh sshE dev.ip, now))
            (dictSet hm dev.ip (get_hostname_via_ssh sshE dev.ip)) dev.ip hfresh).2
          simp [List.count_cons, List.count_eq_zero.mpr hnot]
        · have hcnt := ih (dictSet c dev.ip (get_hostname_via_ssh sshE dev.ip, now))
            (dictSet hm dev.ip (get_hostname_via_ssh sshE dev.ip)) k
          simpa [List.count_cons, hk] using hcnt

/-- A fetch performed by the host-map loop belongs to a reachable device with
a non-empty address whose entry was stale (or absent) in the cache the loop
started from. -/
theorem build_fetched_elig (sshE : SshEnv) (now : Nat) (pm : PingMap)
    (dl : List DeviceEntry) :
    ∀ (c : Cache) (hm : HostMap) (k : String),
      k ∈ (build_host_map sshE now pm c hm dl).2.2 →
      (∃ dev ∈ dl, dev.ip = k ∧ k ≠ "" ∧ dictGetD pm k false = true)
      ∧ cache_stale c now k = true := by
  induction dl with
  | nil => intro c hm k h; simp [build_host_map] at h
  | cons dev rest ih =>
    intro c hm k hk
    by_cases hip : dev.ip = ""
    · simp only [build_host_map, if_pos hip] at hk
      obtain ⟨⟨d, hd, hrest⟩, hst⟩ := ih c _ k hk
      exact ⟨⟨d, List.mem_cons_of_mem dev hd, hrest⟩, hst⟩
    · simp only [build_host_map, if_neg hip] at hk
      rcases ghc_cases sshE c now dev.ip (dictGetD pm dev.ip false) with
        ⟨hr, _⟩ | ⟨hr, hb, hst⟩
      · rw [hr] at hk
        simp at hk
        obtain ⟨⟨d, hd, hrest⟩, hst'⟩ := ih c _ k hk
        exact ⟨⟨d, List.mem_cons_of_mem dev hd, hrest⟩, hst'⟩
      · rw [hr] at hk
        simp at hk
        rcases hk with hk | hk
        · subst hk
          exact ⟨⟨dev, List.mem_cons_self dev rest, rfl, hip, hb⟩, hst⟩
        · obtain ⟨⟨d, hd, hrest⟩, hst'⟩ :=
            ih (dictSet c dev.ip (get_hostname_via_ssh sshE dev.ip, now)) _ k hk
          by_cases hkip : k = dev.ip
          · subst hkip
            have hfresh : cache_stale
                (dictSet c dev.ip (get_hostname_via_ssh sshE dev.ip, now)) now dev.ip = false :=
              cache_stale_now _ now dev.ip _ (dictGet_dictSet_self c dev.ip _)
            rw [hfresh] at hst'
            exact absurd hst' (by simp)
          · have hpres := dictGet_dictSet_ne c dev.ip k
              (get_hostname_via_ssh sshE dev.ip, now) hkip
            rw [cache_stale_congr _ c now k hpres] at hst'
            exact ⟨⟨d, List.mem_cons_of_mem dev hd, hrest⟩, hst'⟩

/-- After the host-map loop, a fetched key's cache entry is the fetched value
stamped with the cycle clock. -/
theorem build_fetched_value (sshE : SshEnv) (now : Nat) (pm : PingMap)
    (dl : List DeviceEntry) :
    ∀ (c : Cache) (hm : HostMap) (k : String),
      k ∈ (build_host_map sshE now pm c hm dl).2.2 →
      dictGet (build_host_map sshE now pm c hm dl).2.1 k
        = some (get_hostname_via_ssh sshE k, now) := by
  induction dl with
  | nil => intro c hm k h; simp [build_host_map] at h
  | cons dev rest ih =>
    intro c hm k hk
    by_cases hip : dev.ip = ""
    · simp only [build_host_map, if_pos hip] at hk ⊢
      exact ih c _ k hk
    · simp only [build_host_map, if_neg hip] at hk ⊢
      rcases ghc_cases sshE c now dev.ip (dictGetD pm dev.ip false) with
        ⟨hr, _⟩ | ⟨hr, hb, hst⟩
      · rw [hr] at hk ⊢
        simp at hk ⊢
        exact ih c _ k hk
      · rw [hr] at hk ⊢
        simp at hk ⊢
        rcases hk with hk | hk
        · subst hk
          have hfresh : cache_stale
              (dictSet c dev.ip (get_hostname_via_ssh sshE dev.ip, now)) now dev.ip = false :=
            cache_stale_now _ now dev.ip _ (dictGet_dictSet_self c dev.ip _)
          have hpres := (build_fresh sshE now pm rest
            (dictSet c dev.ip (get_hostname_via_ssh sshE dev.ip, now))
            (dictSet hm dev.ip (get_hostname_via_ssh sshE dev.ip)) dev.ip hfresh).1
          rw [hpres, dictGet_dictSet_self]
        · exact ih _ _ k hk

/-- Snapshot hostname for a key that is never written this cycle (device
down, or entry fresh): the host map reports the cached value (or
`"unknown"` when no entry exists), the cache entry is untouched, and the key
is never fetched.  The alias hypothesis excludes a raw unresolved entry whose
text equals the address `k`. -/
theorem build_hostmap_value (sshE : SshEnv) (now : Nat) (pm : PingMap)
    (dl : List DeviceEntry) :
    ∀ (c : Cache) (hm : HostMap) (k : String), k ≠ "" →
      (∀ dev' ∈ dl, dev'.ip = "" → dev'.original ≠ k) →
      (dictGetD pm k false = false ∨ cache_stale c now k = false) →
      dictGet (build_host_map sshE now pm c hm dl).1 k
        = (if dl.any (fun d => d.ip == k) then some (valueOf c k) else dictGet hm k)
      ∧ dictGet (build_host_map sshE now pm c hm dl).2.1 k = dictGet c k
      ∧ k ∉ (build_host_map sshE now pm c hm dl).2.2 := by
  induction dl with
  | nil => intro c hm k _ _ _; simp [build_host_map]
  | cons dev rest ih =>
    intro c hm k hk halias hcond
    have halias' : ∀ dev' ∈ rest, dev'.ip = "" → dev'.original ≠ k :=
      fun d hd => halias d (List.mem_cons_of_mem dev hd)
    by_cases hip : dev.ip = ""
    · have horig : dev.original ≠ k := halias dev (List.mem_cons_self dev rest) hip
      simp only [build_host_map, if_pos hip]
      obtain ⟨h1, h2, h3⟩ := ih c (dictSet hm dev.original "unknown") k hk halias' hcond
      have hhead : (dev.ip == k) = false := by
        rw [hip]
        exact beq_eq_false_iff_ne.2 (fun h => hk h.symm)
      refine ⟨?_, h2, h3⟩
      rw [h1, List.any_cons, hhead]
      simp only [Bool.false_or]
      by_cases hany : rest.any (fun d => d.ip == k)
      · simp [hany]
      · have hany' : rest.any (fun d => d.ip == k) = false := Bool.eq_false_iff.mpr hany
        simp [hany', dictGet_dictSet_ne hm dev.original k _ (fun h => horig h.symm)]
    · simp only [build_host_map, if_neg hip]
      by_cases hdk : dev.ip = k
      · rcases ghc_cases sshE c now dev.ip (dictGetD pm dev.ip false) with
          ⟨hr, _⟩ | ⟨hr, hb, hst⟩
        · rw [hr]
          dsimp only
          obtain ⟨h1, h2, h3⟩ := ih c (dictSet hm dev.ip (valueOf c dev.ip)) k hk halias' hcond
          refine ⟨?_, h2, by simpa using h3⟩
          rw [h1, List.any_cons, hdk, beq_self_eq_true]
          simp only [Bool.true_or, if_pos rfl]
          by_cases hany : rest.any (fun d => d.ip == k)
          · simp [hany]
          · have hany' : rest.any (fun d => d.ip == k) = false := Bool.eq_false_iff.mpr hany
            simp [hany', hdk, dictGet_dictSet_self]
        · exfalso
          rw [hdk] at hb hst
          rcases hcond with hcond | hcond
          · rw [hcond] at hb; exact Bool.false_ne_true hb
          · rw [hcond] at hst; exact Bool.false_ne_true hst
      · have hkd : k ≠ dev.ip := fun h => hdk h.symm
        rcases ghc_cases sshE c now dev.ip (dictGetD pm dev.ip false) with
          ⟨hr, _⟩ | ⟨hr, hb, hst⟩
        · rw [hr]
          dsimp only
          obtain ⟨h1, h2, h3⟩ := ih c (dictSet hm dev.ip (valueOf c dev.ip)) k hk halias' hcond
          refine ⟨?_, h2, by simpa using h3⟩
          rw [h1, List.any_cons, beq_eq_false_iff_ne.2 hdk]
          simp only [Bool.false_or]
          rw [dictGet_dictSet_ne hm dev.ip k _ hkd]
        · rw [hr]
          dsimp only
          have hpres := dictGet_dictSet_ne c dev.ip k (get_hostname_via_ssh sshE dev.ip, now) hkd
          have hcond2 : dictGetD pm k false = false
              ∨ cache_stale (dictSet c dev.ip (get_hostname_via_ssh sshE dev.ip, now)) now k = false := by
            rcases hcond with hcond | hcond
            · exact Or.inl hcond
            · exact Or.inr (by rw [cache_stale_congr _ c now k hpres]; exact hcond)
          obtain ⟨h1, h2, h3⟩ := ih (dictSet c dev.ip (get_hostname_via_ssh sshE dev.ip, now))
            (dictSet hm dev.ip (get_hostname_via_ssh sshE dev.ip)) k hk halias' hcond2
          refine ⟨?_, by rw [h2, hpres], ?_⟩
          · rw [h1, List.any_cons, beq_eq_false_iff_ne.2 hdk]
            simp only [Bool.false_or]
            rw [valueOf_congr _ c k hpres, dictGet_dictSet_ne hm dev.ip k _ hkd]
          · simp [hkd, h3]

/-- Snapshot hostname for an unresolved raw entry: `main` writes the literal
`"unknown"` under the raw entry key (source line 473). -/
theorem build_hostmap_unknown (sshE : SshEnv) (now : Nat) (pm : PingMap)
    (dl : List DeviceEntry) :
    ∀ (c : Cache) (hm : HostMap) (k : String),
      (∀ dev' ∈ dl, dev'.ip ≠ k) →
      dictGet (build_host_map sshE now pm c hm dl).1 k
        = if dl.any (fun d => d.ip == "" && d.original == k) then some "unknown"
          else dictGet hm k := by
  induction dl with
  | nil => intro c hm k _; simp [build_host_map]
  | cons dev rest ih =>
    intro c hm k halias
    have halias' : ∀ dev' ∈ rest, dev'.ip ≠ k :=
      fun d hd => halias d (List.mem_cons_of_mem dev hd)
    have hdev : dev.ip ≠ k := halias dev (List.mem_cons_self dev rest)
    by_cases hip : dev.ip = ""
    · simp only [build_host_map, if_pos hip]
      by_cases horig : dev.original = k
      · have h1 := ih c (dictSet hm dev.original "unknown") k halias'
        rw [h1, List.any_cons, hip]
        simp only [beq_self_eq_true, Bool.true_and, horig, beq_self_eq_true, Bool.true_or,
          if_pos rfl]
        by_cases hany : rest.any (fun d => d.ip == "" && d.original == k)
        · simp [hany]
        · have hany' : rest.any (fun d => d.ip == "" && d.original == k) = false :=
            Bool.eq_false_iff.mpr hany
          simp [hany', horig, dictGet_dictSet_self]
      · have h1 := ih c (dictSet hm dev.original "unknown") k halias'
        rw [h1, List.any_cons]
        have hhead : (dev.ip == "" && dev.original == k) = false := by
          rw [beq_eq_false_iff_ne.2 horig]
          simp
        rw [hhead]
        simp only [Bool.false_or]
        rw [dictGet_dictSet_ne hm dev.original k _ (fun h => horig h.symm)]
    · simp only [build_host_map, if_neg hip]
      rcases ghc_cases sshE c now dev.ip (dictGetD pm dev.ip false) with
        ⟨hr, _⟩ | ⟨hr, hb, hst⟩
      · rw [hr]
        dsimp only
        have h1 := ih c (dictSet hm dev.ip (valueOf c dev.ip)) k halias'
        rw [h1, List.any_cons]
        have hhead : (dev.ip == "" && dev.original == k) = false := by
          rw [beq_eq_false_iff_ne.2 hip]
          simp
        rw [hhead]
        simp only [Bool.false_or]
        rw [dictGet_dictSet_ne hm dev.ip k _ (fun h => hdev h.symm)]
      · rw [hr]
        dsimp only
        have h1 := ih (dictSet c dev.ip (get_hostname_via_ssh sshE dev.ip, now))
          (dictSet hm dev.ip (get_hostname_via_ssh sshE dev.ip)) k halias'
        rw [h1, List.any_cons]
        have hhead : (dev.ip == "" && dev.original == k) = false := by
          rw [beq_eq_false_iff_ne.2 hip]
          simp
        rw [hhead]
        simp only [Bool.false_or]
        rw [dictGet_dictSet_ne hm dev.ip k _ (fun h => hdev h.symm)]

theorem mem_ips_up_intro (dl : List DeviceEntry) (pm : PingMap) (dev : DeviceEntry)
    (hmem : dev ∈ dl) (hip : dev.ip ≠ "") (hup : dictGetD pm dev.ip false = true) :
    dev.ip ∈ ips_up_of dl pm := by
  refine List.mem_map.mpr ⟨dev, List.mem_filter.mpr ⟨hmem, ?_⟩, rfl⟩
  have ht : target_of dev = dev.ip := by simp [target_of, hip]
  simp [ht, hip, hup]

/-- A key whose entry is fresh at the cycle clock is not fetched during the
cycle and keeps its cache entry. -/
theorem cycle_fresh (sshE : SshEnv) (now : Nat) (dl : List DeviceEntry)
    (pm : PingMap) (c : Cache) (k : String) (h : cache_stale c now k = false) :
    k ∉ (cycle_hostnames sshE now dl pm c).2.2
    ∧ dictGet (cycle_hostnames sshE now dl pm c).2.1 k = dictGet c k := by
  have hnr : k ∉ refresh_list c now (ips_up_of dl pm) := by
    intro hmem
    obtain ⟨_, hst⟩ := (mem_refresh_list c now (ips_up_of dl pm) k).mp hmem
    rw [h] at hst
    exact Bool.false_ne_true hst
  have hc1 : dictGet (concurrent_hostname_refresh sshE c now (ips_up_of dl pm)) k
      = dictGet c k := by
    rw [refresh_lookup]
    simp [hnr]
  have hst1 : cache_stale (concurrent_hostname_refresh sshE c now (ips_up_of dl pm)) now k
      = false := by
    rw [cache_stale_congr _ c now k hc1]
    exact h
  have hb := build_fresh sshE now pm dl
    (concurrent_hostname_refresh sshE c now (ips_up_of dl pm)) [] k hst1
  simp only [cycle_hostnames]
  constructor
  · intro hmem
    rcases List.mem_append.mp hmem with hmem | hmem
    · exact hnr hmem
    · exact hb.2 hmem
  · rw [hb.1, hc1]

/-- A key not fetched during a cycle keeps its cache entry. -/
theorem cycle_nofetch (sshE : SshEnv) (now : Nat) (dl : List DeviceEntry)
    (pm : PingMap) (c : Cache) (k : String)
    (h : k ∉ (cycle_hostnames sshE now dl pm c).2.2) :
    dictGet (cycle_hostnames sshE now dl pm c).2.1 k = dictGet c k := by
  simp only [cycle_hostnames] at h ⊢
  have hnr : k ∉ refresh_list c now (ips_up_of dl pm) :=
    fun hmem => h (List.mem_append.mpr (Or.inl hmem))
  have hnb : k ∉ (build_host_map sshE now pm
      (concurrent_hostname_refresh sshE c now (ips_up_of dl pm)) [] dl).2.2 :=
    fun hmem => h (List.mem_append.mpr (Or.inr hmem))
  have hc1 : dictGet (concurrent_hostname_refresh sshE c now (ips_up_of dl pm)) k
      = dictGet c k := by
    rw [refresh_lookup]
    simp [hnr]
  rw [build_not_fetched sshE now pm dl _ [] k hnb, hc1]

/-- After a cycle in which a key was fetched, its cache entry carries the
fetched hostname stamped with the cycle clock. -/
theorem cycle_fetched_value (sshE : SshEnv) (now : Nat) (dl : List DeviceEntry)
    (pm : PingMap) (c : Cache) (k : String)
    (h : k ∈ (cycle_hostnames sshE now dl pm c).2.2) :
    dictGet (cycle_hostnames sshE now dl pm c).2.1 k
      = some (get_hostname_via_ssh sshE k, now) := by
  simp only [cycle_hostnames] at h ⊢
  rcases List.mem_append.mp h with hmem | hmem
  · have hc1 : dictGet (concurrent_hostname_refresh sshE c now (ips_up_of dl pm)) k
        = some (get_hostname_via_ssh sshE k, now) := by
      rw [refresh_lookup]
      simp [hmem]
    have hst1 : cache_stale (concurrent_hostname_refresh sshE c now (ips_up_of dl pm)) now k
        = false := cache_stale_now _ now k _ hc1
    have hb := build_fresh sshE now pm dl _ [] k hst1
    rw [hb.1, hc1]
  · exact build_fetched_value sshE now pm dl _ [] k hmem

/-- Per cycle, a key with at most one occurrence in the up-list is fetched at
most once. -/
theorem cycle_count (sshE : SshEnv) (now : Nat) (dl : List DeviceEntry)
    (pm : PingMap) (c : Cache) (k : String)
    (hnodup : (ips_up_of dl pm).count k ≤ 1) :
    ((cycle_hostnames sshE now dl pm c).2.2).count k ≤ 1 := by
  simp only [cycle_hostnames]
  rw [List.count_append]
  have hrc : (refresh_list c now (ips_up_of dl pm)).count k ≤ (ips_up_of dl pm).count k :=
    (List.filter_sublist _).count_le k
  by_cases hk : k ∈ refresh_list c now (ips_up_of dl pm)
  · have hc1 : dictGet (concurrent_hostname_refresh sshE c now (ips_up_of dl pm)) k
        = some (get_hostname_via_ssh sshE k, now) := by
      rw [refresh_lookup]
      simp [hk]
    have hst1 : cache_stale (concurrent_hostname_refresh sshE c now (ips_up_of dl pm)) now k
        = false := cache_stale_now _ now k _ hc1
    have hb := (build_fresh sshE now pm dl _ [] k hst1).2
    rw [List.count_eq_zero.mpr hb]
    omega
  · rw [List.count_eq_zero.mpr hk]
    have := build_fetch_count sshE now pm dl
      (concurrent_hostname_refresh sshE c now (ips_up_of dl pm)) [] k
    omega

/-- Every fetch of a cycle belongs to a reachable device with a non-empty
resolved address whose cache entry was stale or absent at the start of the
cycle. -/
theorem cycle_elig (sshE : SshEnv) (now : Nat) (dl : List DeviceEntry)
    (pm : PingMap) (c : Cache) (k : String)
    (h : k ∈ (cycle_hostnames sshE now dl pm c).2.2) :
    (∃ dev ∈ dl, dev.ip = k ∧ k ≠ "" ∧ dictGetD pm k false = true)
    ∧ cache_stale c now k = true := by
  simp only [cycle_hostnames] at h
  rcases List.mem_append.mp h with hmem | hmem
  · obtain ⟨hup, hst⟩ := (mem_refresh_list c now (ips_up_of dl pm) k).mp hmem
    exact ⟨mem_ips_up dl pm k hup, hst⟩
  · obtain ⟨hdev, hst1⟩ := build_fetched_elig sshE now pm dl _ [] k hmem
    refine ⟨hdev, ?_⟩
    by_cases hk : k ∈ refresh_list c now (ips_up_of dl pm)
    · exfalso
      have hc1 : dictGet (concurrent_hostname_refresh sshE c now (ips_up_of dl pm)) k
          = some (get_hostname_via_ssh sshE k, now) := by
        rw [refresh_lookup]
        simp [hk]
      rw [cache_stale_now _ now k _ hc1] at hst1
      exact Bool.false_ne_true hst1
    · have hc1 : dictGet (concurrent_hostname_refresh sshE c now (ips_up_of dl pm)) k
          = dictGet c k := by
        rw [refresh_lookup]
        simp [hk]
      rw [cache_stale_congr _ c now k hc1] at hst1
      exact hst1

/-- While a key's entry stays fresh at every remaining cycle clock, it is
never fetched again. -/
theorem run_zero (sshE : SshEnv) (cycles : List CycleIn) :
    ∀ (c : Cache) (k : String) (r : String × Nat),
      dictGet c k = some r →
      (∀ cyc ∈ cycles, cyc.now - r.2 < HOSTNAME_REFRESH_SEC) →
      ((run_cycles sshE c cycles).2).count k = 0 := by
  induction cycles with
  | nil => intro c k r _ _; simp [run_cycles]
  | cons cyc rest ih =>
    intro c k r hr hfr
    have hstale : cache_stale c cyc.now k = false := by
      unfold cache_stale
      rw [hr]
      exact decide_eq_false (by
        have := hfr cyc (List.mem_cons_self cyc rest)
        omega)
    have hc := cycle_fresh sshE cyc.now cyc.dl cyc.pm c k hstale
    simp only [run_cycles]
    rw [List.count_append, List.count_eq_zero.mpr hc.1]
    have h2 := ih (cycle_hostnames sshE cyc.now cyc.dl cyc.pm c).2.1 k r
      (hc.2.trans hr) (fun cyc' hc' => hfr cyc' (List.mem_cons_of_mem cyc hc'))
    omega

/-- Across any run of cycles whose clocks lie inside a window shorter than
the hostname TTL, a key that occurs at most once per cycle up-list is fetched
at most once in total. -/
theorem run_count_le_one (sshE : SshEnv) (cycles : List CycleIn) :
    ∀ (c : Cache) (k : String) (lo : Nat),
      (∀ cyc ∈ cycles, lo ≤ cyc.now ∧ cyc.now < lo + HOSTNAME_REFRESH_SEC) →
      (∀ cyc ∈ cycles, (ips_up_of cyc.dl cyc.pm).count k ≤ 1) →
      ((run_cycles sshE c cycles).2).count k ≤ 1 := by
  induction cycles with
  | nil => intro c k lo _ _; simp [run_cycles]
  | cons cyc rest ih =>
    intro c k lo hwin hnd
    simp only [run_cycles]
    rw [List.count_append]
    by_cases hk : k ∈ (cycle_hostnames sshE cyc.now cyc.dl cyc.pm c).2.2
    · have h1 := cycle_count sshE cyc.now cyc.dl cyc.pm c k
        (hnd cyc (List.mem_cons_self cyc rest))
      have hval := cycle_fetched_value sshE cyc.now cyc.dl cyc.pm c k hk
      have h0 := run_zero sshE rest (cycle_hostnames sshE cyc.now cyc.dl cyc.pm c).2.1 k
        (get_hostname_via_ssh sshE k, cyc.now) hval
        (fun cyc' hc' => by
          have ha := hwin cyc (List.mem_cons_self cyc rest)
          have hb := hwin cyc' (List.mem_cons_of_mem cyc hc')
          simp only [HOSTNAME_REFRESH_SEC] at ha hb ⊢
          omega)
      omega
    · rw [List.count_eq_zero.mpr hk]
      have h2 := ih (cycle_hostnames sshE cyc.now cyc.dl cyc.pm c).2.1 k lo
        (fun cyc' hc' => hwin cyc' (List.mem_cons_of_mem cyc hc'))
        (fun cyc' hc' => hnd cyc' (List.mem_cons_of_mem cyc hc'))
      omega

/-- Total metadata-fetch failure (all credentials/commands failing) yields
`"unknown"`. -/
theorem ghvs_fail (sshE : SshEnv) (ip : String)
    (h : ∀ cmd, sshE ip cmd = (false, "")) :
    get_hostname_via_ssh sshE ip = "unknown" := by
  unfold get_hostname_via_ssh
  rw [h CMD_NXOS_HOSTNAME, h CMD_IOSXE_HOSTNAME]
  decide

/-- C1: for a device whose probe result this cycle is `false`, the hostname
cache entry for its address is never written during the cycle, and the host
map backing the snapshot reports the last cached hostname when an entry
exists and `"unknown"` exactly when none was ever created (`valueOf`).  The
alias hypothesis states that no unresolved raw entry textually equals the
device's address (true of real device lists, where addresses are dotted
quads and unresolved entries are not). -/
theorem claim_C1_cache_freeze :
    ∀ (sshE : SshEnv) (now : Nat) (dl : List DeviceEntry) (pm : PingMap)
      (c : Cache) (dev : DeviceEntry),
      dev ∈ dl → dev.ip ≠ "" → dictGetD pm dev.ip false = false →
      (∀ dev' ∈ dl, dev'.ip = "" → dev'.original ≠ dev.ip) →
      dictGet (cycle_hostnames sshE now dl pm c).2.1 dev.ip = dictGet c dev.ip
      ∧ dev.ip ∉ (cycle_hostnames sshE now dl pm c).2.2
      ∧ dictGet (cycle_hostnames sshE now dl pm c).1 dev.ip
          = some (valueOf c dev.ip) := by
  intro sshE now dl pm c dev hmem hip hdown halias
  have hnip : dev.ip ∉ ips_up_of dl pm := not_mem_ips_up_of_down dl pm dev.ip hdown
  have hnr : dev.ip ∉ refresh_list c now (ips_up_of dl pm) :=
    fun hmemr => hnip ((mem_refresh_list c now (ips_up_of dl pm) dev.ip).mp hmemr).1
  have hc1 : dictGet (concurrent_hostname_refresh sshE c now (ips_up_of dl pm)) dev.ip
      = dictGet c dev.ip := by
    rw [refresh_lookup]
    simp [hnr]
  obtain ⟨h1, h2, h3⟩ := build_hostmap_value sshE now pm dl
    (concurrent_hostname_refresh sshE c now (ips_up_of dl pm)) [] dev.ip hip halias
    (Or.inl hdown)
  have hany : dl.any (fun d => d.ip == dev.ip) = true :=
    List.any_eq_true.mpr ⟨dev, hmem, by simp⟩
  refine ⟨?_, ?_, ?_⟩
  · simp only [cycle_hostnames]
    rw [h2, hc1]
  · simp only [cycle_hostnames]
    intro hmemf
    rcases List.mem_append.mp hmemf with hmemf | hmemf
    · exact hnr hmemf
    · exact h3 hmemf
  · simp only [cycle_hostnames]
    rw [h1, hany, valueOf_congr _ c dev.ip hc1]
    simp

/-- Witness for `claim_C1_cache_freeze`: device down with a (stale) cached
hostname `"SW1"`; the cycle leaves the entry untouched and reports
`"SW1"`. -/
theorem claim_C1_cache_freeze_witness :
    dictGet (cycle_hostnames (fun _ _ => (false, "")) 500
        [DeviceEntry.mk "h1" "10.0.0.1" ""] [("10.0.0.1", false)]
        [("10.0.0.1", ("SW1", 0))]).2.1 "10.0.0.1"
      = dictGet [("10.0.0.1", ("SW1", 0))] "10.0.0.1"
    ∧ "10.0.0.1" ∉ (cycle_hostnames (fun _ _ => (false, "")) 500
        [DeviceEntry.mk "h1" "10.0.0.1" ""] [("10.0.0.1", false)]
        [("10.0.0.1", ("SW1", 0))]).2.2
    ∧ dictGet (cycle_hostnames (fun _ _ => (false, "")) 500
        [DeviceEntry.mk "h1" "10.0.0.1" ""] [("10.0.0.1", false)]
        [("10.0.0.1", ("SW1", 0))]).1 "10.0.0.1"
      = some (valueOf [("10.0.0.1", ("SW1", 0))] "10.0.0.1") :=
  claim_C1_cache_freeze (fun _ _ => (false, "")) 500
    [DeviceEntry.mk "h1" "10.0.0.1" ""] [("10.0.0.1", false)]
    [("10.0.0.1", ("SW1", 0))] (DeviceEntry.mk "h1" "10.0.0.1" "")
    (by decide) (by decide) (by decide) (by decide)

/-- C2, counterexample to the claim as stated: device reachable, cache entry
stale (`"SW1"` at time 0, cycle at time 200), metadata fetch totally fails;
the cycle yields `"unknown"` but the cache entry is overwritten with
`("unknown", 200)` — the previously cached hostname is NOT retained. -/
theorem claim_C2_counterexample :
    dictGetD [("10.0.0.1", true)] "10.0.0.1" false = true
    ∧ cache_stale [("10.0.0.1", ("SW1", 0))] 200 "10.0.0.1" = true
    ∧ get_hostname_via_ssh (fun _ _ => (false, "")) "10.0.0.1" = "unknown"
    ∧ dictGet [("10.0.0.1", ("SW1", 0))] "10.0.0.1" = some ("SW1", 0)
    ∧ dictGet (cycle_hostnames (fun _ _ => (false, "")) 200
        [DeviceEntry.mk "h1" "10.0.0.1" ""] [("10.0.0.1", true)]
        [("10.0.0.1", ("SW1", 0))]).2.1 "10.0.0.1" = some ("unknown", 200) := by
  decide

/-- C2 (amended): when a device is reachable, its cache entry is stale, and
the metadata fetch totally fails, the cycle yields `"unknown"` AND the cache
entry is overwritten with `("unknown", now)`; the previously cached value is
lost.  (Last-known retention applies only while the device is unreachable.) -/
theorem claim_C2_failed_fetch_overwrites :
    ∀ (sshE : SshEnv) (now : Nat) (dl : List DeviceEntry) (pm : PingMap)
      (c : Cache) (dev : DeviceEntry),
      dev ∈ dl → dev.ip ≠ "" → dictGetD pm dev.ip false = true →
      cache_stale c now dev.ip = true →
      (∀ cmd, sshE dev.ip cmd = (false, "")) →
      (∀ dev' ∈ dl, dev'.ip = "" → dev'.original ≠ dev.ip) →
      dictGet (cycle_hostnames sshE now dl pm c).1 dev.ip = some "unknown"
      ∧ dictGet (cycle_hostnames sshE now dl pm c).2.1 dev.ip
          = some ("unknown", now) := by
  intro sshE now dl pm c dev hmem hip hup hstale hssh halias
  have hun : get_hostname_via_ssh sshE dev.ip = "unknown" := ghvs_fail sshE dev.ip hssh
  have hupmem : dev.ip ∈ ips_up_of dl pm := mem_ips_up_intro dl pm dev hmem hip hup
  have hrmem : dev.ip ∈ refresh_list c now (ips_up_of dl pm) :=
    (mem_refresh_list c now (ips_up_of dl pm) dev.ip).mpr ⟨hupmem, hstale⟩
  have hc1 : dictGet (concurrent_hostname_refresh sshE c now (ips_up_of dl pm)) dev.ip
      = some ("unknown", now) := by
    rw [refresh_lookup]
    simp only [if_pos hrmem]
    rw [hun]
  have hfr : cache_stale (concurrent_hostname_refresh sshE c now (ips_up_of dl pm)) now dev.ip
      = false := cache_stale_now _ now dev.ip _ hc1
  obtain ⟨h1, h2, h3⟩ := build_hostmap_value sshE now pm dl
    (concurrent_hostname_refresh sshE c now (ips_up_of dl pm)) [] dev.ip hip halias
    (Or.inr hfr)
  have hany : dl.any (fun d => d.ip == dev.ip) = true :=
    List.any_eq_true.mpr ⟨dev, hmem, by simp⟩
  constructor
  · simp only [cycle_hostnames]
    have hv : valueOf (concurrent_hostname_refresh sshE c now (ips_up_of dl pm)) dev.ip
        = "unknown" := by
      unfold valueOf
      rw [hc1]
    rw [h1, hany, hv]
    simp
  · simp only [cycle_hostnames]
    rw [h2, hc1]

/-- Witness for `claim_C2_failed_fetch_overwrites` at the counterexample's
input. -/
theorem claim_C2_failed_fetch_overwrites_witness :
    dictGet (cycle_hostnames (fun _ _ => (false, "")) 200
        [DeviceEntry.mk "h1" "10.0.0.1" ""] [("10.0.0.1", true)]
        [("10.0.0.1", ("SW1", 0))]).1 "10.0.0.1" = some "unknown"
    ∧ dictGet (cycle_hostnames (fun _ _ => (false, "")) 200
        [DeviceEntry.mk "h1" "10.0.0.1" ""] [("10.0.0.1", true)]
        [("10.0.0.1", ("SW1", 0))]).2.1 "10.0.0.1" = some ("unknown", 200) :=
  claim_C2_failed_fetch_overwrites (fun _ _ => (false, "")) 200
    [DeviceEntry.mk "h1" "10.0.0.1" ""] [("10.0.0.1", true)]
    [("10.0.0.1", ("SW1", 0))] (DeviceEntry.mk "h1" "10.0.0.1" "")
    (by decide) (by decide) (by decide) (by decide) (fun _ => rfl) (by decide)

/-- C3, counterexample to the claim as stated: two device-list entries
resolve to the same reachable address `"10.0.0.1"`; in a single cycle (span
`0 < 120` s, device reachable) the SSH hostname fetch for that address is
invoked twice, because `to_refresh` is built before any fetch completes, once
per occurrence. -/
theorem claim_C3_counterexample :
    dictGetD [("10.0.0.1", true)] "10.0.0.1" false = true
    ∧ ((run_cycles (fun _ _ => (false, "")) []
        [CycleIn.mk 0
          [DeviceEntry.mk "a" "10.0.0.1" "", DeviceEntry.mk "b" "10.0.0.1" ""]
          [("10.0.0.1", true)]]).2).count "10.0.0.1" = 2 := by
  decide

/-- C3 (amended): across consecutive cycles whose clocks span less than the
hostname TTL (120 s), the SSH hostname fetch for an address is invoked at
most once, provided the address occurs at most once in each cycle's
reachable-address list (duplicate device-list entries with the same resolved
address are fetched once per occurrence in the cycle whose cache is stale);
and a fetch is attempted only for an address of a currently reachable device
whose cache entry is absent or older than the TTL (`cache_stale`). -/
theorem claim_C3_ttl_respect :
    (∀ (sshE : SshEnv) (cycles : List CycleIn) (c : Cache) (ip : String) (lo : Nat),
      (∀ cyc ∈ cycles, lo ≤ cyc.now ∧ cyc.now < lo + HOSTNAME_REFRESH_SEC) →
      (∀ cyc ∈ cycles, dictGetD cyc.pm ip false = true) →
      (∀ cyc ∈ cycles, (ips_up_of cyc.dl cyc.pm).count ip ≤ 1) →
      ((run_cycles sshE c cycles).2).count ip ≤ 1)
    ∧ (∀ (sshE : SshEnv) (now : Nat) (dl : List DeviceEntry) (pm : PingMap)
        (c : Cache) (ip : String),
        ip ∈ (cycle_hostnames sshE now dl pm c).2.2 →
        (∃ dev ∈ dl, dev.ip = ip ∧ ip ≠ "" ∧ dictGetD pm ip false = true)
        ∧ cache_stale c now ip = true) := by
  constructor
  · intro sshE cycles c ip lo hwin _ hnd
    exact run_count_le_one sshE cycles c ip lo hwin hnd
  · intro sshE now dl pm c ip h
    exact cycle_elig sshE now dl pm c ip h

/-- Witness for `claim_C3_ttl_respect`: one device reachable across two
cycles at clocks 0 and 60 (span `< 120`), starting from an empty cache:
at most one fetch in total; and the single-cycle fetch of a stale reachable
address satisfies the eligibility conditions. -/
theorem claim_C3_ttl_respect_witness :
    ((run_cycles (fun _ _ => (false, "")) []
        [CycleIn.mk 0 [DeviceEntry.mk "a" "10.0.0.1" ""] [("10.0.0.1", true)],
         CycleIn.mk 60 [DeviceEntry.mk "a" "10.0.0.1" ""] [("10.0.0.1", true)]]).2).count
      "10.0.0.1" ≤ 1
    ∧ ((∃ dev ∈ [DeviceEntry.mk "a" "10.0.0.1" ""], dev.ip = "10.0.0.1"
          ∧ "10.0.0.1" ≠ "" ∧ dictGetD [("10.0.0.1", true)] "10.0.0.1" false = true)
        ∧ cache_stale [] 0 "10.0.0.1" = true) := by
  constructor
  · exact claim_C3_ttl_respect.1 (fun _ _ => (false, ""))
      [CycleIn.mk 0 [DeviceEntry.mk "a" "10.0.0.1" ""] [("10.0.0.1", true)],
       CycleIn.mk 60 [DeviceEntry.mk "a" "10.0.0.1" ""] [("10.0.0.1", true)]]
      [] "10.0.0.1" 0 (by decide) (by decide) (by decide)
  · exact claim_C3_ttl_respect.2 (fun _ _ => (false, "")) 0
      [DeviceEntry.mk "a" "10.0.0.1" ""] [("10.0.0.1", true)] [] "10.0.0.1"
      (by decide)

/-- C6: a device-list entry that never resolves (not a literal address,
forward lookup fails, no cached resolution) yields a `DeviceEntry` with empty
address and name; the engine then uses the raw entry string itself as the
probe target, the probe maps to `false` (given the environment's `ping` of
the unresolvable name does not succeed), no SSH fetch of the cycle is for
this entry (every fetched address is a non-empty resolved address different
from it), and its snapshot hostname is `"unknown"`. -/
theorem claim_C6_unresolved_entry :
    (∀ (env : DnsEnv) (now : Nat) (fc : FwdCache) (rc : RevCache) (e : String),
      env.inet_aton_ok e = false → dictGet fc e = none →
      env.gethostbyname e = none →
      (resolve_devices env now fc rc [e]).1 = [DeviceEntry.mk e "" ""])
    ∧ (∀ (sshE : SshEnv) (now : Nat) (dl : List DeviceEntry) (pe : ProbeEnv)
        (c : Cache) (dev : DeviceEntry),
        dev ∈ dl → dev.ip = "" →
        ping_target pe dev.original = false →
        (∀ dev' ∈ dl, dev'.ip ≠ dev.original) →
        target_of dev = dev.original
        ∧ dictGet (concurrent_ping pe (dl.map target_of)) dev.original = some false
        ∧ (∀ ip' ∈ (cycle_hostnames sshE now dl
              (concurrent_ping pe (dl.map target_of)) c).2.2,
            ip' ≠ dev.original ∧ ip' ≠ "")
        ∧ dictGet (cycle_hostnames sshE now dl
              (concurrent_ping pe (dl.map target_of)) c).1 dev.original
            = some "unknown") := by
  constructor
  · intro env now fc rc e ha hfc hgh
    have ho : dns_forward env fc rc now e = ⟨"", "", dictSet fc e ("", "", now), rc, 1⟩ := by
      rw [dns_forward_of_miss env fc rc now e hfc]
      unfold dns_forward_miss
      simp [ha, hgh]
    simp only [resolve_devices, ho]
    simp [ha]
  · intro sshE now dl pe c dev hmem hip hping halias
    have htarget : target_of dev = dev.original := by simp [target_of, hip]
    have hmemt : dev.original ∈ dl.map target_of :=
      List.mem_map.mpr ⟨dev, hmem, htarget⟩
    refine ⟨htarget, ?_, ?_, ?_⟩
    · rw [concurrent_ping_lookup]
      simp [hmemt, hping]
    · intro ip' hf
      obtain ⟨⟨d, hd, hdip, hne, _⟩, _⟩ := cycle_elig sshE now dl
        (concurrent_ping pe (dl.map target_of)) c ip' hf
      exact ⟨hdip ▸ halias d hd, hne⟩
    · have hany : dl.any (fun d => d.ip == "" && d.original == dev.original) = true :=
        List.any_eq_true.mpr ⟨dev, hmem, by simp [hip]⟩
      simp only [cycle_hostnames]
      rw [build_hostmap_unknown sshE now (concurrent_ping pe (dl.map target_of)) dl _ []
        dev.original halias, hany]
      simp

/-- Witness for `claim_C6_unresolved_entry` at a concrete environment and
device list. -/
theorem claim_C6_unresolved_entry_witness :
    (resolve_devices
        ⟨fun _ => false, fun _ => none, fun _ => none, fun _ => none⟩ 0 [] []
        ["bogus.invalid"]).1 = [DeviceEntry.mk "bogus.invalid" "" ""]
    ∧ dictGet (concurrent_ping (fun _ => Except.ok false)
        ([DeviceEntry.mk "bogus.invalid" "" ""].map target_of)) "bogus.invalid"
      = some false
    ∧ dictGet (cycle_hostnames (fun _ _ => (false, "")) 0
        [DeviceEntry.mk "bogus.invalid" "" ""]
        (concurrent_ping (fun _ => Except.ok false)
          ([DeviceEntry.mk "bogus.invalid" "" ""].map target_of)) []).1
        "bogus.invalid" = some "unknown" := by
  refine ⟨?_, ?_, ?_⟩
  · exact claim_C6_unresolved_entry.1
      ⟨fun _ => false, fun _ => none, fun _ => none, fun _ => none⟩ 0 [] []
      "bogus.invalid" rfl rfl rfl
  · exact (claim_C6_unresolved_entry.2 (fun _ _ => (false, "")) 0
      [DeviceEntry.mk "bogus.invalid" "" ""] (fun _ => Except.ok false) []
      (DeviceEntry.mk "bogus.invalid" "" "") (by decide) rfl rfl
      (by decide)).2.1
  · exact (claim_C6_unresolved_entry.2 (fun _ _ => (false, "")) 0
      [DeviceEntry.mk "bogus.invalid" "" ""] (fun _ => Except.ok false) []
      (DeviceEntry.mk "bogus.invalid" "" "") (by decide) rfl rfl
      (by decide)).2.2.2

/-! ## Snapshot composition and rendering order (source lines 84-100,
332-413, 481-488)

Python floats in the layout code are modelled by rationals; the exact
numeric values are immaterial to the ordering claims. -/

def COLS : Nat := 7

structure SnapEntry where
  dev : DeviceEntry
  target : String
  up : Bool
  disp : String

/-- The console snapshot loop of `main` (source lines 482-488): one printed
line per device, in device-list order. -/
def console_snapshot (dl : List DeviceEntry) (pm : PingMap) (hm : HostMap) :
    List SnapEntry :=
  dl.map (fun dev =>
    ⟨dev, target_of dev, dictGetD pm (target_of dev) false,
     clean_hostname
       (if dictGetD hm (target_of dev) "unknown" ≠ "unknown"
        then dictGetD hm (target_of dev) "unknown"
        else if dev.dns_name ≠ "" then clean_hostname dev.dns_name
        else "unknown")⟩)

/-- Python `str.rfind(ch)`: last index, or `-1` when absent. -/
def rfindChar (l : List Char) (ch : Char) : Int :=
  match l.reverse.findIdx? (fun c => c = ch) with
  | some i => (l.length : Int) - 1 - i
  | none => -1

/-- The `while len(buf) > width` loop of `wrap_text` (source lines 84-100).
The fuel argument only discharges termination (each iteration consumes at
least one character when `width ≥ 1`, and call sites pass `width = 16` with
fuel `> length`). -/
def wrap_text_loop (width : Nat) : Nat → List Char → List (List Char)
  | 0, buf => [buf]
  | fuel + 1, buf =>
    if buf.length ≤ width then [buf]
    else
      let window := buf.take width
      let cut := max (rfindChar window '-') (rfindChar window '.')
      if 8 ≤ cut then
        buf.take cut.toNat :: wrap_text_loop width fuel (buf.drop (cut.toNat + 1))
      else
        window :: wrap_text_loop width fuel (buf.drop width)

def wrap_text (s : String) (width : Nat) : String :=
  if s.length ≤ width then s
  else String.intercalate "\n"
    ((wrap_text_loop width (s.data.length + 1) s.data).map (fun l => (⟨l⟩ : String)))

/-- `compute_grid_positions` (source lines 332-348): one `(x, y)` grid
position per index `0 ≤ i < n`, centred around the origin. -/
def compute_grid_positions (n cols : Nat) (x_gap y_gap : ℚ) :
    List (ℚ × ℚ) × Nat :=
  let rows := if cols = 0 then 1 else (n + cols - 1) / cols
  let positions := (List.range n).map (fun i =>
    (((i % cols : Nat) : ℚ) * x_gap, -(((i / cols : Nat) : ℚ) * y_gap)))
  if 0 < n then
    let last_row_count := if n % cols = 0 then cols else n % cols
    let total_width := if cols < n then ((cols : ℚ) - 1) * x_gap
      else ((last_row_count : ℚ) - 1) * x_gap
    let x_offset := -total_width / 2
    let total_height := ((rows : ℚ) - 1) * y_gap
    let y_offset := total_height / 2
    (positions.map (fun p => (p.1 + x_offset, p.2 + y_offset)), rows)
  else (positions, rows)

theorem compute_grid_positions_length (n cols : Nat) (x_gap y_gap : ℚ) :
    ((compute_grid_positions n cols x_gap y_gap).1).length = n := by
  unfold compute_grid_positions
  by_cases h : 0 < n <;> simp [h]

/-- Per-device preview label and spacing contribution of `draw_health_map`
(source lines 360-372). -/
def label_and_width (dev : DeviceEntry) (hm : HostMap) : String × Nat :=
  let ip := target_of dev
  let ssh_hn := dictGetD hm ip "unknown"
  let disp := clean_hostname
    (if ssh_hn ≠ "unknown" then ssh_hn
     else if dev.dns_name ≠ "" then clean_hostname dev.dns_name else "unknown")
  let wrapped := wrap_text disp 16
  let longest_line := ((splitLinesPy wrapped.data).map List.length).foldl max 0
  (wrapped ++ "\n" ++ ip, max longest_line ip.length)

/-- `longest` accumulated over the device list (initial value 12, source
lines 360-372). -/
def draw_longest (dl : List DeviceEntry) (hm : HostMap) : Nat :=
  dl.foldl (fun acc dev => max acc (label_and_width dev hm).2) 12

/-- The grid positions used by `draw_health_map` (source lines 374-379):
`X_GAP = max(4.2, 0.45*longest + 1.8)`, `Y_GAP = 5.0`. -/
def draw_positions (dl : List DeviceEntry) (hm : HostMap) : List (ℚ × ℚ) :=
  (compute_grid_positions dl.length COLS
    (max (21/5) ((9/20) * (draw_longest dl hm : ℚ) + 9/5)) 5).1

structure DrawEntry where
  dev : DeviceEntry
  pos : ℚ × ℚ
  label : String
  up : Bool

/-- The badge-drawing loop of `draw_health_map` (source lines 381-402):
`zip(device_list, positions, preview_labels)`. -/
def draw_entries (dl : List DeviceEntry) (pm : PingMap) (hm : HostMap) :
    List DrawEntry :=
  ((dl.zip (draw_positions dl hm)).zip
      (dl.map (fun dev => (label_and_width dev hm).1))).map
    (fun t => ⟨t.1.1, t.1.2, t.2, dictGetD pm (target_of t.1.1) false⟩)

theorem zip_zip_map_fst {α β γ : Type} (dl : List α) :
    ∀ (ps : List β) (ls : List γ), ps.length = dl.length → ls.length = dl.length →
      (((dl.zip ps).zip ls).map (fun t => t.1.1)) = dl := by
  induction dl with
  | nil => intro ps ls _ _; simp
  | cons a dl ih =>
    intro ps ls hp hl
    cases ps with
    | nil => simp at hp
    | cons p ps =>
      cases ls with
      | nil => simp at hl
      | cons x ls =>
        simp only [List.zip_cons_cons, List.map_cons]
        rw [ih ps ls (by simpa using hp) (by simpa using hl)]

/-- C8: for every device list and any probe/hostname maps (hence regardless
of the completion order of the concurrent probes and fetches, which only
affects dict insertion order, not keyed lookups), both the printed snapshot
and the plotted badge list contain exactly one entry per device, in
device-list order. -/
theorem claim_C8_snapshot_order :
    ∀ (dl : List DeviceEntry) (pm : PingMap) (hm : HostMap),
      (console_snapshot dl pm hm).map SnapEntry.dev = dl
      ∧ (console_snapshot dl pm hm).length = dl.length
      ∧ (draw_entries dl pm hm).map DrawEntry.dev = dl
      ∧ (draw_entries dl pm hm).length = dl.length := by
  intro dl pm hm
  have h1 : (console_snapshot dl pm hm).map SnapEntry.dev = dl := by
    unfold console_snapshot
    rw [List.map_map]
    have : (SnapEntry.dev ∘ fun dev : DeviceEntry =>
        (⟨dev, target_of dev, dictGetD pm (target_of dev) false,
          clean_hostname
            (if dictGetD hm (target_of dev) "unknown" ≠ "unknown"
             then dictGetD hm (target_of dev) "unknown"
             else if dev.dns_name ≠ "" then clean_hostname dev.dns_name
             else "unknown")⟩ : SnapEntry)) = id := funext fun dev => rfl
    rw [this, List.map_id]
  have h3 : (draw_entries dl pm hm).map DrawEntry.dev = dl := by
    unfold draw_entries
    rw [List.map_map]
    have hcomp : (DrawEntry.dev ∘ fun t : (DeviceEntry × ℚ × ℚ) × String =>
        (⟨t.1.1, t.1.2, t.2, dictGetD pm (target_of t.1.1) false⟩ : DrawEntry))
        = fun t => t.1.1 := funext fun t => rfl
    rw [hcomp]
    exact zip_zip_map_fst dl (draw_positions dl hm) _
      (by unfold draw_positions; exact compute_grid_positions_length _ _ _ _)
      (by simp)
  refine ⟨h1, ?_, h3, ?_⟩
  · simpa using congrArg List.length h1
  · simpa using congrArg List.length h3

/-! ## MetadataFetcher: model retrieval (spec §4.3; absent from `src/`) -/

/-- Attempt `label\s+([A-Za-z0-9._\-]+)` (case-insensitive label followed by
whitespace and a token) at this position. -/
def matchLabelWordAt (label : List Char) (cs : List Char) : Option (List Char) :=
  match stripCI label cs with
  | none => none
  | some cs1 =>
    match cs1 with
    | c :: _ =>
      if isPySpace c then
        let tok := (cs1.dropWhile isPySpace).takeWhile isTokenChar
        if tok.isEmpty then none else some tok
      else none
    | [] => none

/-- Case-insensitive substring test. -/
def containsCI (l : List Char) (pat : List Char) : Bool :=
  (searchFirst (fun cs =>
    match stripCI pat cs with
    | some _ => some []
    | none => none) l).isSome

/-- Split on whitespace runs (Python `str.split()`). -/
def splitWsAux : List Char → List Char → List (List Char)
  | [], acc => if acc.isEmpty then [] else [acc.reverse]
  | c :: rest, acc =>
    if isPySpace c then
      if acc.isEmpty then splitWsAux rest []
      else acc.reverse :: splitWsAux rest []
    else splitWsAux rest (c :: acc)

/-- Modelled from the spec: no revision under `src/` performs model
retrieval; §4.3 step 1 of the model chain extracts a
`Model Number: <token>` style field from version/summary output. -/
def parse_model_number_field (out : String) : String :=
  match (splitLinesPy out.data).findSome?
      (fun l => searchFirst (matchLabelColonAt "model number".data) l) with
  | some tok => ⟨tok⟩
  | none => ""

/-- Modelled from the spec: §4.3 step 2 of the model chain extracts a
`Model number is <token>` style field from hardware-summary output. -/
def parse_model_number_is (out : String) : String :=
  match (splitLinesPy out.data).findSome?
      (fun l => searchFirst (matchLabelWordAt "model number is".data) l) with
  | some tok => ⟨tok⟩
  | none => ""

/-- Modelled from the spec: §4.3 step 3 of the model chain scans a
module/slot listing, skips supervisor/fabric rows, and extracts a model token
from a tabular row by column position (third whitespace-separated field). -/
def parse_model_module (out : String) : String :=
  match (splitLinesPy out.data).findSome? (fun l =>
    if containsCI l "supervisor".data || containsCI l "fabric".data then none
    else
      match splitWsAux l [] with
      | _ :: _ :: m :: _ =>
        if !m.isEmpty && m.all isTokenChar then some m else none
      | _ => none) with
  | some tok => ⟨tok⟩
  | none => ""

def CMD_MODEL_VERSION : String := "show version"

def CMD_MODEL_HW : String := "show hardware"

def CMD_MODEL_MODULE : String := "show module"

def modelA_result (r : Bool × String) : String :=
  if r.1 && r.2 != "" then parse_model_number_field r.2 else ""

def modelB_result (r : Bool × String) : String :=
  if r.1 && r.2 != "" then parse_model_number_is r.2 else ""

def modelC_result (r : Bool × String) : String :=
  if r.1 && r.2 != "" then parse_model_module r.2 else ""

/-- Modelled from the spec: `fetchModel(address) -> string` (§4.3), the
model-command fallback chain — version/summary `Model Number:` field, then
hardware-summary `Model number is` field, then module/slot listing — first
successful non-empty parse wins, `"unknown"` on total failure, never raising
(a total function of the session oracle). -/
def fetchModel (sshE : SshEnv) (ip : String) : String :=
  let a := modelA_result (sshE ip CMD_MODEL_VERSION)
  if a ≠ "" then a
  else
    let b := modelB_result (sshE ip CMD_MODEL_HW)
    if b ≠ "" then b
    else
      let c := modelC_result (sshE ip CMD_MODEL_MODULE)
      if c ≠ "" then c else "unknown"

/-- C9: `fetchModel` follows the model command fallback chain (version
`Model Number:` field, then hardware `Model number is` field, then module
listing), returns `"unknown"` on total failure, and is independent of
`fetchHostname`: its result depends only on the session oracle's answers to
the three model commands, so hostname-command behaviour cannot affect it. -/
theorem claim_C9_fetch_model :
    (∀ (sshE : SshEnv) (ip : String),
      modelA_result (sshE ip CMD_MODEL_VERSION) ≠ "" →
      fetchModel sshE ip = modelA_result (sshE ip CMD_MODEL_VERSION))
    ∧ (∀ (sshE : SshEnv) (ip : String),
        modelA_result (sshE ip CMD_MODEL_VERSION) = "" →
        modelB_result (sshE ip CMD_MODEL_HW) ≠ "" →
        fetchModel sshE ip = modelB_result (sshE ip CMD_MODEL_HW))
    ∧ (∀ (sshE : SshEnv) (ip : String),
        modelA_result (sshE ip CMD_MODEL_VERSION) = "" →
        modelB_result (sshE ip CMD_MODEL_HW) = "" →
        modelC_result (sshE ip CMD_MODEL_MODULE) = "" →
        fetchModel sshE ip = "unknown")
    ∧ (∀ (sshE sshE' : SshEnv) (ip : String),
        sshE ip CMD_MODEL_VERSION = sshE' ip CMD_MODEL_VERSION →
        sshE ip CMD_MODEL_HW = sshE' ip CMD_MODEL_HW →
        sshE ip CMD_MODEL_MODULE = sshE' ip CMD_MODEL_MODULE →
        fetchModel sshE ip = fetchModel sshE' ip)
    ∧ fetchModel
        (fun _ cmd => if cmd = CMD_MODEL_VERSION
          then (true, "Model Number: C9300-48T") else (false, "")) "10.0.0.9"
      = "C9300-48T" := by
  refine ⟨?_, ?_, ?_, ?_, ?_⟩
  · intro sshE ip h
    simp only [fetchModel]
    rw [if_pos h]
  · intro sshE ip hA hB
    simp only [fetchModel, hA]
    rw [if_neg (by simp), if_pos hB]
  · intro sshE ip hA hB hC
    simp only [fetchModel, hA, hB, hC]
    rw [if_neg (by simp), if_neg (by simp), if_neg (by simp)]
  · intro sshE sshE' ip h1 h2 h3
    simp only [fetchModel, h1, h2, h3]
  · decide

/-- Witness for `claim_C9_fetch_model` at concrete oracles. -/
theorem claim_C9_fetch_model_witness :
    fetchModel (fun _ _ => (false, "")) "10.0.0.9" = "unknown"
    ∧ fetchModel
        (fun _ cmd => if cmd = CMD_MODEL_HW
          then (true, "Model number is WS-C3850") else (false, "")) "10.0.0.9"
      = "WS-C3850" := by
  constructor
  · exact claim_C9_fetch_model.2.2.1 (fun _ _ => (false, "")) "10.0.0.9"
      (by decide) (by decide) (by decide)
  · have h := claim_C9_fetch_model.2.1
      (fun _ cmd => if cmd = CMD_MODEL_HW
        then (true, "Model number is WS-C3850") else (false, "")) "10.0.0.9"
      (by decide) (by decide)
    rw [h]; decide

end HealthProb
